import Mathlib

/-! go-queue: in-process (channel.go) and networked (beanstalk.go) queue backends

A shallow embedding of the two backends and the properties of their
`Put` / `Get` / `RemoveQueue` operations.

Modelling conventions.

* A Go channel is a reference.  The backend state carries a `heap` of every
  channel that exists; a channel reference is `none` (the nil channel) or
  `some i`, the index of the channel in the heap.  `make` appends to the heap.
* A Go map is an association list read with `List.lookup`; `delete` filters
  the key out.  A nil map is `none`.
* One call is evaluated from a given state with no other goroutine acting
  meanwhile.  Its outcome is `ret` (the call returned), `block` (the call
  cannot complete in this state: it waits for another goroutine) or
  `panicked`.  Every outcome carries the state the call leaves behind, so a
  blocked or panicked call that already created a channel or consumed an item
  is visible.  A hand-over on an unbuffered channel needs two goroutines and
  is therefore a `block` of each call taken alone.
* `make(chan interface{}, n)` panics when `n` is negative and when `n` exceeds
  the largest size the platform allocates; that limit is the field
  `makeLimit` of the state, which no call changes.  A size within the limit is
  taken to be allocated (running out of memory is not modelled).
-/

namespace GoQueue

/-! ## Values, types and reflection -/

/-- An `interface{}` value: the nil interface, or a dynamic type with a payload. -/
inductive Value (Ty D : Type) where
  | nil
  | dyn (ty : Ty) (d : D)
  deriving DecidableEq

/-- The second argument `v` of `Get`, as far as `reflect` distinguishes it. -/
inductive Dest (Ty : Type) where
  /-- The argument is the nil interface. -/
  | untypedNil
  /-- The argument is a non-pointer value of the given type. -/
  | nonPointer (ty : Ty)
  /-- The argument is a nil pointer of type `*elem`. -/
  | nilPtr (elem : Ty)
  /-- The argument is a non-nil pointer of type `*elem`. -/
  | ptr (elem : Ty)
  deriving DecidableEq

/-- The facts about Go types the development uses.  `assignable src dst` is
`reflect`'s rule for storing a value of dynamic type `src` into a variable of
type `dst`; `nilable dst` says that the language lets `nil` be assigned to a
variable of type `dst` (pointer, function, slice, map, channel and interface
types). -/
structure TypeSystem (Ty : Type) where
  assignable : Ty → Ty → Bool
  nilable : Ty → Bool

/-- The ways a call can panic. -/
inductive PanicKind where
  /-- Function `make` was given a size out of range: negative, or beyond the limit. -/
  | makechanSize
  /-- Assignment to an entry of a nil map. -/
  | nilMapAssign
  /-- Send on a closed channel. -/
  | sendClosed
  /-- Method `reflect.Value.Elem` on something that is not a pointer. -/
  | reflectElem
  /-- Method `reflect.Value.Set` on a destination that cannot be set. -/
  | reflectUnsettable
  /-- Method `reflect.Value.Set` with the zero `reflect.Value` as source. -/
  | reflectZeroValue
  /-- Method `reflect.Value.Set` with a source type not assignable to the destination. -/
  | reflectTypeMismatch
  deriving DecidableEq

/-- The statement `reflect.ValueOf(v).Elem().Set(reflect.ValueOf(result))` of
`ChannelBackend.Get`: the new content of the destination, or the panic. -/
def reflectSet {Ty D : Type} (ts : TypeSystem Ty) (dest : Dest Ty) (result : Value Ty D) :
    Except PanicKind (Value Ty D) :=
  match dest with
  | .untypedNil => .error .reflectElem
  | .nonPointer _ => .error .reflectElem
  | .nilPtr _ => .error .reflectUnsettable
  | .ptr elem =>
    match result with
    | .nil => .error .reflectZeroValue
    | .dyn ty d => if ts.assignable ty elem then .ok (.dyn ty d) else .error .reflectTypeMismatch

/-! ## Channels and the in-process backend (channel.go) -/

/-- A buffered channel: capacity, buffered items (oldest first), closed flag. -/
structure Chan (Ty D : Type) where
  cap : Nat
  buf : List (Value Ty D)
  closed : Bool
  deriving DecidableEq

/-- A channel reference: `none` is the nil channel. -/
abbrev ChanRef := Option Nat

/-- The struct `ChannelBackend` together with the channels that exist and the
largest channel size that `make` accepts on the platform. -/
structure ChannelBackend (Ty D : Type) where
  heap : List (Chan Ty D)
  channels : Option (List (String × ChanRef))
  buffer : Int
  makeLimit : Nat
  deriving DecidableEq

/-- Outcome of one call evaluated alone from a state. -/
inductive Outcome (Ty D R : Type) where
  | ret (r : R) (b : ChannelBackend Ty D)
  | block (b : ChannelBackend Ty D)
  | panicked (p : PanicKind) (b : ChannelBackend Ty D)
  deriving DecidableEq

/-- The state a call leaves behind. -/
def Outcome.state {Ty D R : Type} : Outcome Ty D R → ChannelBackend Ty D
  | .ret _ b => b
  | .block b => b
  | .panicked _ b => b

/-- Method `Channels`: sets the channel map. -/
def ChannelBackend.Channels {Ty D : Type} (b : ChannelBackend Ty D)
    (channels : Option (List (String × ChanRef))) : ChannelBackend Ty D :=
  { b with channels := channels }

/-- Method `Buffer`: sets the buffer size used for channels created later. -/
def ChannelBackend.Buffer {Ty D : Type} (b : ChannelBackend Ty D) (buffer : Int) :
    ChannelBackend Ty D :=
  { b with buffer := buffer }

/-- Function `NewChannelBackend`: an empty map and buffer 1000, on a platform
where `make` accepts sizes up to `makeLimit`. -/
def NewChannelBackend (Ty D : Type) (makeLimit : Nat) : ChannelBackend Ty D :=
  ((ChannelBackend.mk [] none 0 makeLimit).Channels (some [])).Buffer 1000

/-- The result of `NewChannelBackend` in a program where the caller has made
the channels `chans` itself (to hand them over through `Channels`). -/
def callerMade {Ty D : Type} (makeLimit : Nat) (chans : List (Chan Ty D)) :
    ChannelBackend Ty D :=
  { NewChannelBackend Ty D makeLimit with heap := chans }

/-- Reading `m[q]` with the comma-ok form; a nil map has no entry. -/
def mapLookup (m : Option (List (String × ChanRef))) (q : String) : Option ChanRef :=
  match m with
  | none => none
  | some l => l.lookup q

/-- Method `getChannel`: look the name up, and when it is absent make a
channel of the configured buffer and insert it. The `make` panics when the
buffer is negative or beyond the limit of the platform. -/
def ChannelBackend.getChannel {Ty D : Type} (b : ChannelBackend Ty D) (queueName : String) :
    Outcome Ty D ChanRef :=
  match mapLookup b.channels queueName with
  | some result => .ret result b
  | none =>
    if b.buffer < 0 ∨ (b.makeLimit : Int) < b.buffer then .panicked .makechanSize b
    else
      let b1 := { b with heap := b.heap ++ [Chan.mk b.buffer.toNat [] false] }
      match b.channels with
      | none => .panicked .nilMapAssign b1
      | some l =>
        .ret (some b.heap.length)
          { b1 with channels := some ((queueName, some b.heap.length) :: l) }

/-- The send statement `ch <- value`. -/
def chanSend {Ty D : Type} (b : ChannelBackend Ty D) (ch : ChanRef) (value : Value Ty D) :
    Outcome Ty D Unit :=
  match ch with
  | none => .block b
  | some i =>
    match b.heap.get? i with
    | none => .block b
    | some c =>
      if c.closed then .panicked .sendClosed b
      else if c.buf.length < c.cap then
        .ret () { b with heap := b.heap.set i { c with buf := c.buf ++ [value] } }
      else .block b

/-- The receive expression `<-ch`. -/
def chanRecv {Ty D : Type} (b : ChannelBackend Ty D) (ch : ChanRef) :
    Outcome Ty D (Value Ty D) :=
  match ch with
  | none => .block b
  | some i =>
    match b.heap.get? i with
    | none => .block b
    | some c =>
      match c.buf with
      | x :: rest => .ret x { b with heap := b.heap.set i { c with buf := rest } }
      | [] => if c.closed then .ret .nil b else .block b

/-- Method `ChannelBackend.Put`; the returned error is `none` for nil. -/
def ChannelBackend.Put {Ty D : Type} (b : ChannelBackend Ty D) (queueName : String)
    (value : Value Ty D) : Outcome Ty D (Option String) :=
  match b.getChannel queueName with
  | .ret ch b1 =>
    match chanSend b1 ch value with
    | .ret _ b2 => .ret none b2
    | .block b2 => .block b2
    | .panicked p b2 => .panicked p b2
  | .block b1 => .block b1
  | .panicked p b1 => .panicked p b1

/-- What a returning `Get` hands back: the error and the destination's new content. -/
structure GetReturn (Ty D : Type) where
  err : Option String
  stored : Value Ty D
  deriving DecidableEq

/-- Method `ChannelBackend.Get`. -/
def ChannelBackend.Get {Ty D : Type} (ts : TypeSystem Ty) (b : ChannelBackend Ty D)
    (queueName : String) (v : Dest Ty) : Outcome Ty D (GetReturn Ty D) :=
  match b.getChannel queueName with
  | .ret ch b1 =>
    match chanRecv b1 ch with
    | .ret result b2 =>
      match reflectSet ts v result with
      | .ok x => .ret ⟨none, x⟩ b2
      | .error p => .panicked p b2
    | .block b2 => .block b2
    | .panicked p b2 => .panicked p b2
  | .block b1 => .block b1
  | .panicked p b1 => .panicked p b1

/-- Method `ChannelBackend.RemoveQueue`; deleting from a nil map does nothing. -/
def ChannelBackend.RemoveQueue {Ty D : Type} (b : ChannelBackend Ty D) (queueName : String) :
    Outcome Ty D (Option String) :=
  .ret none { b with channels := b.channels.map (fun l => l.filter (fun p => p.1 != queueName)) }

/-! ## Observations and call sequences -/

/-- The channel a name is mapped to, if the name is mapped to a live channel. -/
def ChannelBackend.chanOf {Ty D : Type} (b : ChannelBackend Ty D) (q : String) :
    Option (Chan Ty D) :=
  match mapLookup b.channels q with
  | some (some i) => b.heap.get? i
  | _ => none

/-- The items buffered under a name (none when the name is not mapped). -/
def ChannelBackend.buffered {Ty D : Type} (b : ChannelBackend Ty D) (q : String) :
    List (Value Ty D) :=
  match b.chanOf q with
  | some c => c.buf
  | none => []

/-- A call of the queue contract. -/
inductive Op (Ty D : Type) where
  | put (q : String) (value : Value Ty D)
  | get (q : String) (v : Dest Ty)
  | remove (q : String)
  deriving DecidableEq

/-- What the caller of one call observes. -/
inductive Observed (Ty D : Type) where
  /-- Calls `Put` and `RemoveQueue` returned this error. -/
  | returned (err : Option String)
  /-- Call `Get` returned this error and stored this value. -/
  | got (err : Option String) (stored : Value Ty D)
  | blocked
  | panicked (p : PanicKind)
  deriving DecidableEq

/-- One call: what is observed and the state left behind. -/
def ChannelBackend.call {Ty D : Type} (ts : TypeSystem Ty) (b : ChannelBackend Ty D) :
    Op Ty D → Observed Ty D × ChannelBackend Ty D
  | .put q value =>
    match b.Put q value with
    | .ret e b1 => (.returned e, b1)
    | .block b1 => (.blocked, b1)
    | .panicked p b1 => (.panicked p, b1)
  | .get q v =>
    match b.Get ts q v with
    | .ret r b1 => (.got r.err r.stored, b1)
    | .block b1 => (.blocked, b1)
    | .panicked p b1 => (.panicked p, b1)
  | .remove q =>
    match b.RemoveQueue q with
    | .ret e b1 => (.returned e, b1)
    | .block b1 => (.blocked, b1)
    | .panicked p b1 => (.panicked p, b1)

/-- A sequence of calls, one after the other: the observations in order and the final state. -/
def ChannelBackend.calls {Ty D : Type} (ts : TypeSystem Ty) (b : ChannelBackend Ty D) :
    List (Op Ty D) → List (Observed Ty D) × ChannelBackend Ty D
  | [] => ([], b)
  | op :: rest =>
    let r := b.call ts op
    let rs := ChannelBackend.calls ts r.2 rest
    (r.1 :: rs.1, rs.2)

/-- The state after a sequence of calls. -/
def ChannelBackend.after {Ty D : Type} (ts : TypeSystem Ty) (b : ChannelBackend Ty D)
    (ops : List (Op Ty D)) : ChannelBackend Ty D :=
  (b.calls ts ops).2

/-! ## A small concrete type universe for the worked examples -/

/-- Three Go types: `int`, `string` and the empty interface. -/
inductive GoTy where
  | int
  | string
  | emptyInterface
  deriving DecidableEq

/-- Assignability among the three: identical types, and everything to the empty interface. -/
def goTypes : TypeSystem GoTy where
  assignable := fun src dst => decide (dst = GoTy.emptyInterface) || decide (src = dst)
  nilable := fun dst => decide (dst = GoTy.emptyInterface)

/-- An `int` value. -/
def intV (n : Nat) : Value GoTy Nat := .dyn .int n

/-- A limit of `make` for the worked examples: `2^44 - 6`, the largest number
of 16-byte elements below an allocation limit of `2^48` bytes less the
96-byte channel header. -/
def exampleLimit : Nat := 17592186044410

/-- The value `math.MaxInt64`. -/
def maxInt64 : Int := 9223372036854775807

/-- The state after `value` was appended to the buffer of channel `i`, which was `c`. -/
def ChannelBackend.pushAt {Ty D : Type} (b : ChannelBackend Ty D) (i : Nat) (c : Chan Ty D)
    (value : Value Ty D) : ChannelBackend Ty D :=
  { b with heap := b.heap.set i { c with buf := c.buf ++ [value] } }

/-- The state after the head of channel `i`, which was `c`, was taken, leaving `rest`. -/
def ChannelBackend.popAt {Ty D : Type} (b : ChannelBackend Ty D) (i : Nat) (c : Chan Ty D)
    (rest : List (Value Ty D)) : ChannelBackend Ty D :=
  { b with heap := b.heap.set i { c with buf := rest } }

/-- The backend whose newest channel, mapped by `Q` at the front of the map, holds `buf`. -/
def newest {Ty D : Type} (h : List (Chan Ty D)) (l : List (String × ChanRef)) (buffer : Int)
    (makeLimit : Nat) (Q : String) (buf : List (Value Ty D)) : ChannelBackend Ty D :=
  { heap := h ++ [Chan.mk buffer.toNat buf false],
    channels := some ((Q, some h.length) :: l),
    buffer := buffer,
    makeLimit := makeLimit }

/-- The channels made by the backend, those at index `h0` and beyond, have
capacity `N`, hold at most `N` items and are open. -/
def ChannelBackend.CreatedOk {Ty D : Type} (b : ChannelBackend Ty D) (h0 N : Nat) : Prop :=
  ∀ i c, h0 ≤ i → b.heap.get? i = some c → c.cap = N ∧ c.buf.length ≤ N ∧ c.closed = false

/-- What one call adds to the record of completed puts: the pair of queue
name and value when the call is a `Put` that returned. -/
def logEntry {Ty D : Type} (op : Op Ty D) (obs : Observed Ty D) : List (String × Value Ty D) :=
  match op, obs with
  | .put q value, .returned _ => [(q, value)]
  | _, _ => []

/-- The pairs of queue name and value of the `Put` calls that returned, in a
sequence of calls made from state `b`. -/
def ChannelBackend.putLog {Ty D : Type} (ts : TypeSystem Ty) (b : ChannelBackend Ty D) :
    List (Op Ty D) → List (String × Value Ty D)
  | [] => []
  | op :: rest =>
    logEntry op (b.call ts op).1 ++ ChannelBackend.putLog ts (b.call ts op).2 rest

/-- A backend whose map holds only references to existing channels, maps
different names to different channels, and whose mapped channels are empty. -/
def ChannelBackend.Isolated {Ty D : Type} (b : ChannelBackend Ty D) : Prop :=
  (∀ q i, mapLookup b.channels q = some (some i) → i < b.heap.length)
  ∧ (∀ q q2 i, mapLookup b.channels q = some (some i) →
      mapLookup b.channels q2 = some (some i) → q = q2)
  ∧ (∀ q i c, mapLookup b.channels q = some (some i) → b.heap.get? i = some c → c.buf = [])

/-- The invariant behind isolation: references are valid, names do not share
channels, and every item buffered under a name is in the record of puts on
that name. -/
def ChannelBackend.Inv {Ty D : Type} (b : ChannelBackend Ty D)
    (log : List (String × Value Ty D)) : Prop :=
  (∀ q i, mapLookup b.channels q = some (some i) → i < b.heap.length)
  ∧ (∀ q q2 i, mapLookup b.channels q = some (some i) →
      mapLookup b.channels q2 = some (some i) → q = q2)
  ∧ (∀ q i c, mapLookup b.channels q = some (some i) → b.heap.get? i = some c →
      ∀ x ∈ c.buf, (q, x) ∈ log)

/-- Compatibility of a stored value with a destination type in the sense of
the language's assignability: a typed value is compatible when its dynamic
type is assignable to the type, nil when the type admits nil. -/
def compatible {Ty D : Type} (ts : TypeSystem Ty) (x : Value Ty D) (T : Ty) : Bool :=
  match x with
  | .nil => ts.nilable T
  | .dyn ty _ => ts.assignable ty T

/-- Destination `v` accepts the item `result`: the item is not nil, the
destination is a non-nil pointer, and the dynamic type of the item is
assignable to the element type of the pointer. -/
def accepts {Ty D : Type} (ts : TypeSystem Ty) (v : Dest Ty) (result : Value Ty D) : Bool :=
  match v, result with
  | .ptr elem, .dyn ty _ => ts.assignable ty elem
  | _, _ => false

/-- What the caller of a `Get` that received `result` observes. -/
def observedGet {Ty D : Type} (ts : TypeSystem Ty) (v : Dest Ty) (result : Value Ty D) :
    Observed Ty D :=
  match reflectSet ts v result with
  | .ok x => .got none x
  | .error p => .panicked p

/-- The backend with the single queue `Q`, of capacity `c`, holding `buf`. -/
def single (Ty D : Type) (makeLimit : Nat) (Q : String) (c : Nat) (buf : List (Value Ty D)) :
    ChannelBackend Ty D :=
  { heap := [Chan.mk c buf false], channels := some [(Q, some 0)], buffer := c,
    makeLimit := makeLimit }

/-! ## The networked backend (beanstalk.go)

The pool, the codec and the beanstalk connection are collaborators outside
the repository: their answers are parameters (`World`, and the list of the
answers of `Reserve`), and every call made on them is recorded, in order, in a
trace of `Event`s. -/

/-- A call made on a collaborator. -/
inductive Event (Conn Data V : Type) where
  /-- Call `b.pool.BorrowObject(b.poolContext)`. -/
  | borrowObject
  /-- Call `b.pool.ReturnObject(b.poolContext, conn)`. -/
  | returnObject (conn : Conn)
  /-- Call `b.codec.Marshal(value)`. -/
  | marshal (value : V)
  /-- Call `poolTubes.Get()`. -/
  | poolTubesGet
  /-- Call `poolTubes.Put(tube)`. -/
  | poolTubesPut
  /-- Call `tube.Put(data, pri, delay, ttr)` on the tube of `conn` named `name`. -/
  | tubePut (conn : Conn) (name : String) (data : Data) (pri delay ttr : Nat)
  /-- Call `poolTubeSets.Get()`. -/
  | poolTubeSetsGet
  /-- Call `poolTubeSets.Put(tube)`. -/
  | poolTubeSetsPut
  /-- Call `tube.Reserve(time.Minute)` on the tube set of `conn` holding `name`. -/
  | reserve (conn : Conn) (name : String)
  /-- Call `b.codec.Unmarshal(data, value)`. -/
  | unmarshal (data : Data)
  /-- Call `conn.Delete(id)`. -/
  | delete (conn : Conn) (id : Nat)
  deriving DecidableEq

/-- The three results `(id, data, err)` of one `Reserve`; `err = none` is a nil error. -/
structure ReserveResult (E Data : Type) where
  id : Nat
  data : Data
  err : Option E
  deriving DecidableEq

/-- The answers of the collaborators. `Unmarshal` and `Delete` are called at
most once in a call of `Get`, `Marshal` and `tube.Put` at most once in a call
of `Put`, so a function of the arguments describes them. -/
structure World (E Conn Data V : Type) where
  /-- The value `beanstalk.ErrTimeout`. -/
  errTimeout : E
  /-- The result of `BorrowObject`. -/
  borrowObject : Except E Conn
  /-- The result of `codec.Marshal`. -/
  marshal : V → Except E Data
  /-- The error of `tube.Put`. -/
  tubePut : Conn → String → Data → Option E
  /-- The error of `codec.Unmarshal`. -/
  unmarshal : Data → Option E
  /-- The error of `conn.Delete`. -/
  delete : Conn → Nat → Option E

/-- Method `getConn`: the borrowed connection, or the error of the pool. -/
def getConn {E Conn Data V : Type} (w : World E Conn Data V) : Except E Conn :=
  match w.borrowObject with
  | .error err => .error err
  | .ok o => .ok o

/-- Method `BeanstalkBackend.Put`: the returned error and the calls made. The
deferred calls run last, in reverse order of their `defer`. -/
def beanstalkPut {E Conn Data V : Type} (w : World E Conn Data V) (queueName : String)
    (value : V) : Option E × List (Event Conn Data V) :=
  match getConn w with
  | .error err => (some err, [.borrowObject])
  | .ok conn =>
    match w.marshal value with
    | .error err => (some err, [.borrowObject, .marshal value, .returnObject conn])
    | .ok data =>
      (w.tubePut conn queueName data,
        [.borrowObject, .marshal value, .poolTubesGet, .tubePut conn queueName data 1 0 0,
          .poolTubesPut, .returnObject conn])

/-- The `for` loop of `BeanstalkBackend.Get`, run against the answers that
`Reserve` will give, in order: the error returned and the calls made, or
`none` when the answers run out before the loop returns (the call is still
waiting). -/
def reserveLoop {E Conn Data V : Type} [DecidableEq E] (w : World E Conn Data V) (conn : Conn)
    (queueName : String) : List (ReserveResult E Data) → Option (Option E × List (Event Conn Data V))
  | [] => none
  | r :: rest =>
    match r.err with
    | none =>
      match w.unmarshal r.data with
      | some err => some (some err, [.reserve conn queueName, .unmarshal r.data])
      | none =>
        match w.delete conn r.id with
        | some err =>
          some (some err, [.reserve conn queueName, .unmarshal r.data, .delete conn r.id])
        | none => some (none, [.reserve conn queueName, .unmarshal r.data, .delete conn r.id])
    | some err =>
      if err ≠ w.errTimeout then some (some err, [.reserve conn queueName])
      else
        match reserveLoop w conn queueName rest with
        | none => none
        | some (e, tr) => some (e, .reserve conn queueName :: tr)

/-- Method `BeanstalkBackend.Get`. -/
def beanstalkGet {E Conn Data V : Type} [DecidableEq E] (w : World E Conn Data V)
    (queueName : String) (answers : List (ReserveResult E Data)) :
    Option (Option E × List (Event Conn Data V)) :=
  match getConn w with
  | .error err => some (some err, [.borrowObject])
  | .ok conn =>
    match reserveLoop w conn queueName answers with
    | none => none
    | some (e, tr) =>
      some (e, [.borrowObject, .poolTubeSetsGet] ++ tr ++ [.poolTubeSetsPut, .returnObject conn])

/-- Method `BeanstalkBackend.RemoveQueue`: returns nil and calls nothing. -/
def beanstalkRemoveQueue {E Conn Data V : Type} (_w : World E Conn Data V)
    (_queueName : String) : Option E × List (Event Conn Data V) :=
  (none, [])

/-- The connections handed to `ReturnObject` in a trace, in order. -/
def returnedConns {Conn Data V : Type} : List (Event Conn Data V) → List Conn
  | [] => []
  | .returnObject conn :: rest => conn :: returnedConns rest
  | _ :: rest => returnedConns rest

/-- The number of `Reserve` calls in a trace. -/
def reserveCalls {Conn Data V : Type} : List (Event Conn Data V) → Nat
  | [] => 0
  | .reserve _ _ :: rest => reserveCalls rest + 1
  | _ :: rest => reserveCalls rest

/-- A world for the worked examples: errors are numbers, 0 is the timeout;
the pool lends connection 7; the codec is the identity on numbers except that
`Unmarshal` fails with error 5 on data 13; `Delete` fails with error 6 on id 99. -/
def demoWorld : World Nat Nat Nat Nat where
  errTimeout := 0
  borrowObject := .ok 7
  marshal := fun value => .ok value
  tubePut := fun _ _ _ => none
  unmarshal := fun data => if data = 13 then some 5 else none
  delete := fun _ id => if id = 99 then some 6 else none

/-- The body of the loop of `Get` on an answer of `Reserve`, up to the
`return`: the error returned and the calls made in this iteration. (On a
timeout answer the body does not return; the loop goes on.) -/
def answerOutcome {E Conn Data V : Type} (w : World E Conn Data V) (conn : Conn)
    (queueName : String) (r : ReserveResult E Data) : Option E × List (Event Conn Data V) :=
  match r.err with
  | some err => (some err, [.reserve conn queueName])
  | none =>
    match w.unmarshal r.data with
    | some err => (some err, [.reserve conn queueName, .unmarshal r.data])
    | none =>
      (w.delete conn r.id, [.reserve conn queueName, .unmarshal r.data, .delete conn r.id])

/-- Error values of the beanstalk client, as far as `Get` tells them apart. -/
inductive ClientError where
  /-- The value `beanstalk.ErrTimeout`. -/
  | errTimeout
  /-- A value `beanstalk.ConnError{Conn, Op, Err}`: operation `op` of the connection failed with `err`. -/
  | connError (op : String) (err : ClientError)
  /-- Any other error value. -/
  | other (code : Nat)
  deriving DecidableEq

/-- The three results of the client's `TubeSet.Reserve` when the server
answers `TIMED_OUT`. The client reports the error of a response as a
`ConnError` around it, so the error is
`ConnError{Conn, "reserve-with-timeout", ErrTimeout}`, not the value
`ErrTimeout` itself; the id is 0 and the body is empty. -/
def reserveTimedOut : ReserveResult ClientError Nat :=
  { id := 0, data := 0, err := some (.connError "reserve-with-timeout" .errTimeout) }

/-- A world with the client's error values: the pool lends connection 7, the
codec and `Delete` never fail. -/
def clientWorld : World ClientError Nat Nat Nat where
  errTimeout := .errTimeout
  borrowObject := .ok 7
  marshal := fun value => .ok value
  tubePut := fun _ _ _ => none
  unmarshal := fun _ => none
  delete := fun _ _ => none

/-! ## Lemmas on a backend holding one queue -/

theorem put_fresh {Ty D : Type} (L : Nat) (Q : String) (c : Nat) (hc : 1 ≤ c) (hL : c ≤ L)
    (v : Value Ty D) :
    ((NewChannelBackend Ty D L).Buffer c).Put Q v = .ret none (single Ty D L Q c [v]) := by
  have h1 : ¬ ((c : Int) < 0) := by omega
  have h3 : ¬ (L < c) := by omega
  have h2 : 0 < c := hc
  simp [ChannelBackend.Put, ChannelBackend.getChannel, NewChannelBackend, ChannelBackend.Buffer,
    ChannelBackend.Channels, mapLookup, chanSend, single, h1, h2, h3]

theorem put_single {Ty D : Type} (L : Nat) (Q : String) (c : Nat) (buf : List (Value Ty D))
    (h : buf.length < c) (v : Value Ty D) :
    (single Ty D L Q c buf).Put Q v = .ret none (single Ty D L Q c (buf ++ [v])) := by
  simp [ChannelBackend.Put, ChannelBackend.getChannel, mapLookup, chanSend, single, h]

theorem get_single_cons {Ty D : Type} (ts : TypeSystem Ty) (L : Nat) (Q : String) (c : Nat)
    (x : Value Ty D) (buf : List (Value Ty D)) (d : Dest Ty) :
    (single Ty D L Q c (x :: buf)).call ts (.get Q d)
      = (observedGet ts d x, single Ty D L Q c buf) := by
  simp only [ChannelBackend.call, ChannelBackend.Get, ChannelBackend.getChannel, mapLookup,
    chanRecv, single, observedGet, List.lookup, beq_self_eq_true, List.get?, List.set]
  cases reflectSet ts d x <;> rfl

theorem get_single_nil {Ty D : Type} (ts : TypeSystem Ty) (L : Nat) (Q : String) (c : Nat)
    (d : Dest Ty) :
    (single Ty D L Q c []).Get ts Q d = .block (single Ty D L Q c []) := by
  simp [ChannelBackend.Get, ChannelBackend.getChannel, mapLookup, chanRecv, single]

theorem get_fresh {Ty D : Type} (ts : TypeSystem Ty) (L : Nat) (Q : String) (c : Nat)
    (hL : c ≤ L) (d : Dest Ty) :
    ((NewChannelBackend Ty D L).Buffer c).Get ts Q d = .block (single Ty D L Q c []) := by
  have h1 : ¬ ((c : Int) < 0) := by omega
  have h3 : ¬ (L < c) := by omega
  simp [ChannelBackend.Get, ChannelBackend.getChannel, NewChannelBackend, ChannelBackend.Buffer,
    ChannelBackend.Channels, mapLookup, chanRecv, single, h1, h3]

theorem buffered_single {Ty D : Type} (L : Nat) (Q : String) (c : Nat)
    (buf : List (Value Ty D)) :
    (single Ty D L Q c buf).buffered Q = buf := by
  simp [ChannelBackend.buffered, ChannelBackend.chanOf, mapLookup, single]

theorem calls_puts_single {Ty D : Type} (ts : TypeSystem Ty) (L : Nat) (Q : String) (c : Nat)
    (vs : List (Value Ty D)) :
    ∀ buf : List (Value Ty D), buf.length + vs.length ≤ c →
      (single Ty D L Q c buf).calls ts (vs.map (Op.put Q))
        = (vs.map (fun _ => Observed.returned none), single Ty D L Q c (buf ++ vs)) := by
  induction vs with
  | nil => intro buf _; simp [ChannelBackend.calls]
  | cons v vs ih =>
    intro buf h
    have hlt : buf.length < c := by simp at h; omega
    have hrest : (buf ++ [v]).length + vs.length ≤ c := by simp at h ⊢; omega
    simp [ChannelBackend.calls, ChannelBackend.call, put_single L Q c buf hlt v,
      ih (buf ++ [v]) hrest]

theorem calls_gets_single {Ty D : Type} (ts : TypeSystem Ty) (L : Nat) (Q : String) (c : Nat)
    (items : List (Dest Ty × Value Ty D)) :
    ∀ rest : List (Value Ty D),
      (single Ty D L Q c (items.map (fun p => p.2) ++ rest)).calls ts
          (items.map (fun p => Op.get Q p.1))
        = (items.map (fun p => observedGet ts p.1 p.2), single Ty D L Q c rest) := by
  induction items with
  | nil => intro rest; simp [ChannelBackend.calls]
  | cons p items ih =>
    intro rest
    simp [ChannelBackend.calls, get_single_cons, ih rest]

/-! ## Lemmas on the channel map and on single calls -/

theorem lookup_filter_self (l : List (String × ChanRef)) (q : String) :
    (l.filter (fun p => p.1 != q)).lookup q = none := by
  induction l with
  | nil => rfl
  | cons p l ih =>
    obtain ⟨k, r⟩ := p
    rw [List.filter_cons]
    by_cases h : k = q
    · simp [h, ih]
    · have h2 : (q == k) = false := by simp; exact fun e => h e.symm
      have h3 : (k != q) = true := by simp [h]
      simp only [h3, if_true, List.lookup_cons, h2, ih]

theorem lookup_filter_ne (l : List (String × ChanRef)) (q q' : String) (hne : q' ≠ q) :
    (l.filter (fun p => p.1 != q)).lookup q' = l.lookup q' := by
  induction l with
  | nil => rfl
  | cons p l ih =>
    obtain ⟨k, r⟩ := p
    rw [List.filter_cons]
    by_cases h : k = q
    · have h2 : (q' == k) = false := by simp [h, hne]
      have h3 : (k != q) = false := by simp [h]
      simp only [h3, List.lookup_cons, h2]
      simpa using ih
    · have h3 : (k != q) = true := by simp [h]
      simp only [h3, if_true, List.lookup_cons, ih]

theorem getChannel_mapped {Ty D : Type} (b : ChannelBackend Ty D) (q : String) (r : ChanRef)
    (h : mapLookup b.channels q = some r) : b.getChannel q = .ret r b := by
  simp [ChannelBackend.getChannel, h]

theorem getChannel_absent {Ty D : Type} (b : ChannelBackend Ty D) (q : String)
    (l : List (String × ChanRef)) (hl : b.channels = some l)
    (h : mapLookup b.channels q = none) (hbuf : 0 ≤ b.buffer)
    (hlim : b.buffer ≤ (b.makeLimit : Int)) :
    b.getChannel q = .ret (some b.heap.length) (newest b.heap l b.buffer b.makeLimit q []) := by
  have h1 : ¬ (b.buffer < 0 ∨ (b.makeLimit : Int) < b.buffer) := by omega
  simp only [ChannelBackend.getChannel, h, h1, if_false, newest]
  rw [hl]

theorem removeQueue_lookup_self {Ty D : Type} (b : ChannelBackend Ty D) (Q : String) :
    mapLookup (b.RemoveQueue Q).state.channels Q = none := by
  cases hc : b.channels with
  | none => simp [ChannelBackend.RemoveQueue, Outcome.state, hc, mapLookup]
  | some l => simp [ChannelBackend.RemoveQueue, Outcome.state, hc, mapLookup, lookup_filter_self]

theorem removeQueue_lookup_ne {Ty D : Type} (b : ChannelBackend Ty D) (Q q : String)
    (hne : q ≠ Q) :
    mapLookup (b.RemoveQueue Q).state.channels q = mapLookup b.channels q := by
  cases hc : b.channels with
  | none => simp [ChannelBackend.RemoveQueue, Outcome.state, hc, mapLookup]
  | some l =>
    simp [ChannelBackend.RemoveQueue, Outcome.state, hc, mapLookup, lookup_filter_ne l Q q hne]

theorem get?_append_length {α : Type} (l : List α) (a : α) :
    (l ++ [a]).get? l.length = some a := by
  simp

theorem set_append_length {α : Type} (l : List α) (a a' : α) :
    (l ++ [a]).set l.length a' = l ++ [a'] := by
  induction l with
  | nil => rfl
  | cons x l ih => simp [ih]

theorem getChannel_buffer {Ty D : Type} (b : ChannelBackend Ty D) (q : String) :
    (b.getChannel q).state.buffer = b.buffer := by
  simp only [ChannelBackend.getChannel]
  repeat' split
  all_goals rfl

theorem getChannel_channels_isSome {Ty D : Type} (b : ChannelBackend Ty D) (q : String) :
    (b.getChannel q).state.channels.isSome = b.channels.isSome := by
  simp only [ChannelBackend.getChannel]
  repeat' split
  all_goals simp_all [Outcome.state]

theorem getChannel_lookup_keep {Ty D : Type} (b : ChannelBackend Ty D) (q Q : String)
    (r : ChanRef) (h : mapLookup b.channels Q = some r) :
    mapLookup (b.getChannel q).state.channels Q = some r := by
  simp only [ChannelBackend.getChannel]
  split
  · exact h
  · rename_i hq
    split
    · exact h
    · split
      · exact h
      · rename_i l hl
        have hne : (Q == q) = false := by
          simp only [beq_eq_false_iff_ne]
          intro e
          rw [e, hq] at h
          exact Option.noConfusion h
        simp only [Outcome.state, mapLookup, List.lookup_cons, hne]
        simpa [hl, mapLookup] using h

theorem chanSend_channels {Ty D : Type} (b : ChannelBackend Ty D) (ch : ChanRef)
    (v : Value Ty D) :
    (chanSend b ch v).state.channels = b.channels ∧ (chanSend b ch v).state.buffer = b.buffer := by
  simp only [chanSend]
  repeat' split
  all_goals exact ⟨rfl, rfl⟩

theorem chanRecv_channels {Ty D : Type} (b : ChannelBackend Ty D) (ch : ChanRef) :
    (chanRecv b ch).state.channels = b.channels ∧ (chanRecv b ch).state.buffer = b.buffer := by
  simp only [chanRecv]
  repeat' split
  all_goals exact ⟨rfl, rfl⟩

/-- The state after `Put` is the state after its send, which follows its lookup. -/
theorem put_state {Ty D : Type} (b : ChannelBackend Ty D) (q : String) (v : Value Ty D) :
    (b.Put q v).state = (b.getChannel q).state ∨
    ∃ ch, (b.Put q v).state = (chanSend (b.getChannel q).state ch v).state := by
  simp only [ChannelBackend.Put]
  cases hg : b.getChannel q with
  | ret ch b1 =>
    right
    refine ⟨ch, ?_⟩
    cases hs : chanSend b1 ch v <;> simp [Outcome.state, hs]
  | block b1 => left; rfl
  | panicked p b1 => left; rfl

/-- The state after `Get` is the state after its receive, which follows its lookup. -/
theorem get_state {Ty D : Type} (ts : TypeSystem Ty) (b : ChannelBackend Ty D) (q : String)
    (d : Dest Ty) :
    (b.Get ts q d).state = (b.getChannel q).state ∨
    ∃ ch, (b.Get ts q d).state = (chanRecv (b.getChannel q).state ch).state := by
  simp only [ChannelBackend.Get]
  cases hg : b.getChannel q with
  | ret ch b1 =>
    right
    refine ⟨ch, ?_⟩
    cases hs : chanRecv b1 ch with
    | ret x b2 => cases hr : reflectSet ts d x <;> simp [Outcome.state, hs, hr]
    | block b2 => simp [Outcome.state, hs]
    | panicked p b2 => simp [Outcome.state, hs]
  | block b1 => left; rfl
  | panicked p b1 => left; rfl

theorem call_state {Ty D : Type} (ts : TypeSystem Ty) (b : ChannelBackend Ty D) (op : Op Ty D) :
    (b.call ts op).2 = match op with
      | .put q v => (b.Put q v).state
      | .get q d => (b.Get ts q d).state
      | .remove q => (b.RemoveQueue q).state := by
  cases op with
  | put q v => simp only [ChannelBackend.call]; cases b.Put q v <;> rfl
  | get q d => simp only [ChannelBackend.call]; cases b.Get ts q d <;> rfl
  | remove q => rfl

/-- No call changes the configured buffer or turns the map nil or non-nil. -/
theorem call_config {Ty D : Type} (ts : TypeSystem Ty) (b : ChannelBackend Ty D) (op : Op Ty D) :
    (b.call ts op).2.buffer = b.buffer ∧
    (b.call ts op).2.channels.isSome = b.channels.isSome := by
  rw [call_state]
  cases op with
  | put q v =>
    rcases put_state b q v with h | ⟨ch, h⟩
    · simp only [h]; exact ⟨getChannel_buffer b q, getChannel_channels_isSome b q⟩
    · simp only [h, (chanSend_channels _ ch v).1, (chanSend_channels _ ch v).2]
      exact ⟨getChannel_buffer b q, getChannel_channels_isSome b q⟩
  | get q d =>
    rcases get_state ts b q d with h | ⟨ch, h⟩
    · simp only [h]; exact ⟨getChannel_buffer b q, getChannel_channels_isSome b q⟩
    · simp only [h, (chanRecv_channels _ ch).1, (chanRecv_channels _ ch).2]
      exact ⟨getChannel_buffer b q, getChannel_channels_isSome b q⟩
  | remove q =>
    simp only [ChannelBackend.RemoveQueue, Outcome.state]
    cases b.channels <;> simp

theorem after_config {Ty D : Type} (ts : TypeSystem Ty) (ops : List (Op Ty D)) :
    ∀ b : ChannelBackend Ty D, (b.after ts ops).buffer = b.buffer ∧
      (b.after ts ops).channels.isSome = b.channels.isSome := by
  induction ops with
  | nil => intro b; exact ⟨rfl, rfl⟩
  | cons op ops ih =>
    intro b
    have h1 := call_config ts b op
    have h2 := ih (b.call ts op).2
    simp only [ChannelBackend.after, ChannelBackend.calls] at h2 ⊢
    exact ⟨h2.1.trans h1.1, h2.2.trans h1.2⟩

theorem getChannel_makeLimit {Ty D : Type} (b : ChannelBackend Ty D) (q : String) :
    (b.getChannel q).state.makeLimit = b.makeLimit := by
  simp only [ChannelBackend.getChannel]
  repeat' split
  all_goals rfl

theorem chanSend_makeLimit {Ty D : Type} (b : ChannelBackend Ty D) (ch : ChanRef)
    (v : Value Ty D) : (chanSend b ch v).state.makeLimit = b.makeLimit := by
  simp only [chanSend]
  repeat' split
  all_goals rfl

theorem chanRecv_makeLimit {Ty D : Type} (b : ChannelBackend Ty D) (ch : ChanRef) :
    (chanRecv b ch).state.makeLimit = b.makeLimit := by
  simp only [chanRecv]
  repeat' split
  all_goals rfl

/-- No call changes the limit of `make`. -/
theorem call_makeLimit {Ty D : Type} (ts : TypeSystem Ty) (b : ChannelBackend Ty D)
    (op : Op Ty D) : (b.call ts op).2.makeLimit = b.makeLimit := by
  rw [call_state]
  cases op with
  | put q v =>
    rcases put_state b q v with h | ⟨ch, h⟩
    · simp only [h]; exact getChannel_makeLimit b q
    · simp only [h, chanSend_makeLimit]; exact getChannel_makeLimit b q
  | get q d =>
    rcases get_state ts b q d with h | ⟨ch, h⟩
    · simp only [h]; exact getChannel_makeLimit b q
    · simp only [h, chanRecv_makeLimit]; exact getChannel_makeLimit b q
  | remove q => rfl

theorem after_makeLimit {Ty D : Type} (ts : TypeSystem Ty) (ops : List (Op Ty D)) :
    ∀ b : ChannelBackend Ty D, (b.after ts ops).makeLimit = b.makeLimit := by
  induction ops with
  | nil => intro b; rfl
  | cons op ops ih =>
    intro b
    have h1 := call_makeLimit ts b op
    have h2 := ih (b.call ts op).2
    simp only [ChannelBackend.after, ChannelBackend.calls] at h2 ⊢
    exact h2.trans h1

/-- A call other than `RemoveQueue(Q)` keeps the entry of `Q`. -/
theorem call_lookup_keep {Ty D : Type} (ts : TypeSystem Ty) (b : ChannelBackend Ty D)
    (op : Op Ty D) (Q : String) (r : ChanRef) (hop : op ≠ Op.remove Q)
    (h : mapLookup b.channels Q = some r) :
    mapLookup (b.call ts op).2.channels Q = some r := by
  rw [call_state]
  cases op with
  | put q v =>
    rcases put_state b q v with h1 | ⟨ch, h1⟩
    · simp only [h1]; exact getChannel_lookup_keep b q Q r h
    · simp only [h1, (chanSend_channels _ ch v).1]; exact getChannel_lookup_keep b q Q r h
  | get q d =>
    rcases get_state ts b q d with h1 | ⟨ch, h1⟩
    · simp only [h1]; exact getChannel_lookup_keep b q Q r h
    · simp only [h1, (chanRecv_channels _ ch).1]; exact getChannel_lookup_keep b q Q r h
  | remove q =>
    have hne : Q ≠ q := fun e => hop (by rw [e])
    simp only [removeQueue_lookup_ne b q Q hne, h]

theorem after_lookup_keep {Ty D : Type} (ts : TypeSystem Ty) (Q : String) (r : ChanRef)
    (ops : List (Op Ty D)) :
    ∀ b : ChannelBackend Ty D, (∀ op ∈ ops, op ≠ Op.remove Q) →
      mapLookup b.channels Q = some r → mapLookup (b.after ts ops).channels Q = some r := by
  induction ops with
  | nil => intro b _ h; exact h
  | cons op ops ih =>
    intro b hops h
    have h1 := call_lookup_keep ts b op Q r (hops op (List.mem_cons_self _ _)) h
    have h2 := ih (b.call ts op).2 (fun o ho => hops o (List.mem_cons_of_mem _ ho)) h1
    simpa only [ChannelBackend.after, ChannelBackend.calls] using h2

theorem put_mapped {Ty D : Type} (b : ChannelBackend Ty D) (q : String) (i : Nat)
    (c : Chan Ty D) (v : Value Ty D) (hq : mapLookup b.channels q = some (some i))
    (hc : b.heap.get? i = some c) :
    b.Put q v = if c.closed then .panicked .sendClosed b
      else if c.buf.length < c.cap then .ret none (b.pushAt i c v) else .block b := by
  simp only [ChannelBackend.Put, getChannel_mapped b q (some i) hq, chanSend, hc]
  by_cases h1 : c.closed = true
  · simp only [h1, if_true]
  · by_cases h2 : c.buf.length < c.cap
    · simp [h1, h2, ChannelBackend.pushAt]
    · simp [h1, h2]

theorem get_mapped_cons {Ty D : Type} (ts : TypeSystem Ty) (b : ChannelBackend Ty D)
    (q : String) (i : Nat) (c : Chan Ty D) (x : Value Ty D) (rest : List (Value Ty D))
    (d : Dest Ty) (hq : mapLookup b.channels q = some (some i))
    (hc : b.heap.get? i = some c) (hbuf : c.buf = x :: rest) :
    b.Get ts q d = match reflectSet ts d x with
      | .ok y => .ret ⟨none, y⟩ (b.popAt i c rest)
      | .error p => .panicked p (b.popAt i c rest) := by
  have hr : chanRecv b (some i) = .ret x (b.popAt i c rest) := by
    simp only [chanRecv, hc, hbuf, ChannelBackend.popAt]
  simp only [ChannelBackend.Get, getChannel_mapped b q (some i) hq, hr]

theorem call_get_mapped_cons {Ty D : Type} (ts : TypeSystem Ty) (b : ChannelBackend Ty D)
    (q : String) (i : Nat) (c : Chan Ty D) (x : Value Ty D) (rest : List (Value Ty D))
    (d : Dest Ty) (hq : mapLookup b.channels q = some (some i))
    (hc : b.heap.get? i = some c) (hbuf : c.buf = x :: rest) :
    b.call ts (.get q d) = (observedGet ts d x, b.popAt i c rest) := by
  simp only [ChannelBackend.call, get_mapped_cons ts b q i c x rest d hq hc hbuf, observedGet]
  cases reflectSet ts d x <;> rfl

/-- No destination accepts the nil interface value. -/
theorem reflectSet_nil {Ty D : Type} (ts : TypeSystem Ty) (d : Dest Ty) (y : Value Ty D) :
    reflectSet ts d (Value.nil : Value Ty D) ≠ .ok y := by
  cases d <;> simp [reflectSet]

/-- A stored value is the received value. -/
theorem reflectSet_ok {Ty D : Type} (ts : TypeSystem Ty) (d : Dest Ty) (x y : Value Ty D)
    (h : reflectSet ts d x = .ok y) : y = x := by
  cases d with
  | untypedNil => simp [reflectSet] at h
  | nonPointer t => simp [reflectSet] at h
  | nilPtr t => simp [reflectSet] at h
  | ptr t =>
    cases x with
    | nil => simp [reflectSet] at h
    | dyn ty p =>
      simp only [reflectSet] at h
      split at h
      · injection h with h; exact h.symm
      · exact Except.noConfusion h

/-! ## Case analysis of the calls -/

theorem getChannel_cases {Ty D : Type} (b : ChannelBackend Ty D) (q : String) :
    (∃ r, mapLookup b.channels q = some r ∧ b.getChannel q = .ret r b)
    ∨ (mapLookup b.channels q = none ∧ (b.buffer < 0 ∨ (b.makeLimit : Int) < b.buffer)
        ∧ b.getChannel q = .panicked .makechanSize b)
    ∨ (b.channels = none ∧ 0 ≤ b.buffer ∧ b.buffer ≤ (b.makeLimit : Int)
        ∧ b.getChannel q = .panicked .nilMapAssign
            { b with heap := b.heap ++ [Chan.mk b.buffer.toNat [] false] })
    ∨ (∃ l, b.channels = some l ∧ mapLookup b.channels q = none ∧ 0 ≤ b.buffer
        ∧ b.buffer ≤ (b.makeLimit : Int)
        ∧ b.getChannel q
            = .ret (some b.heap.length) (newest b.heap l b.buffer b.makeLimit q [])) := by
  cases hm : mapLookup b.channels q with
  | some r => exact Or.inl ⟨r, rfl, getChannel_mapped b q r hm⟩
  | none =>
    right
    by_cases hneg : b.buffer < 0 ∨ (b.makeLimit : Int) < b.buffer
    · left
      refine ⟨rfl, hneg, ?_⟩
      simp only [ChannelBackend.getChannel, hm, hneg, if_true]
    · right
      have h0 : 0 ≤ b.buffer := by omega
      have h1 : b.buffer ≤ (b.makeLimit : Int) := by omega
      cases hc : b.channels with
      | none =>
        left
        refine ⟨rfl, h0, h1, ?_⟩
        simp only [ChannelBackend.getChannel, hm, hneg, if_false]
        rw [hc]
      | some l =>
        right
        exact ⟨l, rfl, rfl, h0, h1, getChannel_absent b q l hc hm h0 h1⟩

theorem getChannel_ret_lookup {Ty D : Type} (b b1 : ChannelBackend Ty D) (q : String)
    (ch : ChanRef) (h : b.getChannel q = .ret ch b1) : mapLookup b1.channels q = some ch := by
  rcases getChannel_cases b q with ⟨r, hr, hg⟩ | ⟨_, _, hg⟩ | ⟨_, _, _, hg⟩ | ⟨l, _, _, _, _, hg⟩
  · rw [hg] at h; injection h with e1 e2; rw [← e2, ← e1]; exact hr
  · rw [hg] at h; exact Outcome.noConfusion h
  · rw [hg] at h; exact Outcome.noConfusion h
  · rw [hg] at h; injection h with e1 e2; rw [← e2, ← e1]; simp [mapLookup, newest]

theorem put_cases {Ty D : Type} (b : ChannelBackend Ty D) (q : String) (v : Value Ty D) :
    (∃ i c, mapLookup (b.getChannel q).state.channels q = some (some i)
        ∧ (b.getChannel q).state.heap.get? i = some c
        ∧ c.closed = false ∧ c.buf.length < c.cap
        ∧ b.Put q v = .ret none ((b.getChannel q).state.pushAt i c v))
    ∨ ((∀ e b1, b.Put q v ≠ .ret e b1) ∧ (b.Put q v).state = (b.getChannel q).state) := by
  cases hg : b.getChannel q with
  | block b1 => right; simp [ChannelBackend.Put, hg, Outcome.state]
  | panicked p b1 => right; simp [ChannelBackend.Put, hg, Outcome.state]
  | ret ch b1 =>
    have hl := getChannel_ret_lookup b b1 q ch hg
    cases ch with
    | none => right; simp [ChannelBackend.Put, hg, Outcome.state, chanSend]
    | some i =>
      cases hc : b1.heap.get? i with
      | none =>
        right
        have hs : chanSend b1 (some i) v = .block b1 := by simp only [chanSend, hc]
        simp [ChannelBackend.Put, hg, Outcome.state, hs]
      | some c =>
        by_cases h1 : c.closed = true
        · right
          have hs : chanSend b1 (some i) v = .panicked .sendClosed b1 := by
            simp only [chanSend, hc, h1, if_true]
          simp [ChannelBackend.Put, hg, Outcome.state, hs]
        · by_cases h2 : c.buf.length < c.cap
          · left
            have hs : chanSend b1 (some i) v = .ret () (b1.pushAt i c v) := by
              simp only [chanSend, hc, h1, h2, if_true, ChannelBackend.pushAt]; rfl
            refine ⟨i, c, hl, hc, by simpa using h1, h2, ?_⟩
            simp [ChannelBackend.Put, hg, Outcome.state, hs]
          · right
            have hs : chanSend b1 (some i) v = .block b1 := by
              simp only [chanSend, hc, h1, h2]; rfl
            simp [ChannelBackend.Put, hg, Outcome.state, hs]

theorem get_cases {Ty D : Type} (ts : TypeSystem Ty) (b : ChannelBackend Ty D) (q : String)
    (d : Dest Ty) :
    (∃ i c x rest, mapLookup (b.getChannel q).state.channels q = some (some i)
        ∧ (b.getChannel q).state.heap.get? i = some c
        ∧ c.buf = x :: rest
        ∧ b.Get ts q d = match reflectSet ts d x with
            | .ok y => .ret ⟨none, y⟩ ((b.getChannel q).state.popAt i c rest)
            | .error p => .panicked p ((b.getChannel q).state.popAt i c rest))
    ∨ ((∀ r b1, b.Get ts q d ≠ .ret r b1) ∧ (b.Get ts q d).state = (b.getChannel q).state) := by
  cases hg : b.getChannel q with
  | block b1 => right; simp [ChannelBackend.Get, hg, Outcome.state]
  | panicked p b1 => right; simp [ChannelBackend.Get, hg, Outcome.state]
  | ret ch b1 =>
    have hl := getChannel_ret_lookup b b1 q ch hg
    cases ch with
    | none => right; simp [ChannelBackend.Get, hg, Outcome.state, chanRecv]
    | some i =>
      cases hc : b1.heap.get? i with
      | none =>
        right
        have hr : chanRecv b1 (some i) = .block b1 := by simp only [chanRecv, hc]
        simp [ChannelBackend.Get, hg, Outcome.state, hr]
      | some c =>
        cases hb : c.buf with
        | cons x rest =>
          left
          refine ⟨i, c, x, rest, hl, hc, hb, ?_⟩
          simp only [ChannelBackend.Get, hg, chanRecv, hc, hb, Outcome.state,
            ChannelBackend.popAt]
        | nil =>
          right
          by_cases h1 : c.closed = true
          · have hr : chanRecv b1 (some i) = .ret .nil b1 := by
              simp only [chanRecv, hc, hb, h1, if_true]
            simp only [ChannelBackend.Get, hg, hr, Outcome.state]
            cases hs : reflectSet ts d (Value.nil : Value Ty D) with
            | ok y => exact absurd hs (reflectSet_nil ts d y)
            | error p => simp
          · have hr : chanRecv b1 (some i) = .block b1 := by
              simp only [chanRecv, hc, hb, h1]; rfl
            simp [ChannelBackend.Get, hg, hr, Outcome.state]

theorem get?_append_single {α : Type} (h : List α) (a c : α) (i : Nat)
    (hi : (h ++ [a]).get? i = some c) : h.get? i = some c ∨ (i = h.length ∧ c = a) := by
  rw [List.get?_eq_getElem?, List.getElem?_append] at hi
  by_cases hlt : i < h.length
  · left; rw [List.get?_eq_getElem?]; simpa [hlt] using hi
  · right
    simp only [hlt, if_false] at hi
    have hle : i - h.length = 0 := by
      by_contra hne
      have : 1 ≤ i - h.length := by omega
      rw [List.getElem?_eq_none (by simpa using this)] at hi
      exact Option.noConfusion hi
    refine ⟨by omega, ?_⟩
    rw [hle] at hi
    simpa using hi.symm

theorem get?_set_cases {α : Type} (h : List α) (a c : α) (i j : Nat)
    (hj : (h.set i a).get? j = some c) : (j = i ∧ c = a) ∨ (j ≠ i ∧ h.get? j = some c) := by
  rw [List.get?_eq_getElem?, List.getElem?_set] at hj
  by_cases hij : i = j
  · left
    simp only [hij, if_true] at hj
    split at hj
    · injection hj with hj; exact ⟨hij.symm, hj.symm⟩
    · exact Option.noConfusion hj
  · right
    simp only [hij, if_false] at hj
    exact ⟨fun e => hij e.symm, by rw [List.get?_eq_getElem?]; exact hj⟩

/-! ## C1: FIFO of the in-process backend -/

theorem reflectSet_of_accepts {Ty D : Type} (ts : TypeSystem Ty) (d : Dest Ty)
    (v : Value Ty D) (h : accepts ts d v = true) : reflectSet ts d v = .ok v := by
  cases d with
  | untypedNil => simp [accepts] at h
  | nonPointer t => simp [accepts] at h
  | nilPtr t => simp [accepts] at h
  | ptr T =>
    cases v with
    | nil => simp [accepts] at h
    | dyn ty p =>
      simp only [accepts] at h
      simp [reflectSet, h]

theorem after_append {Ty D : Type} (ts : TypeSystem Ty) (xs ys : List (Op Ty D)) :
    ∀ b : ChannelBackend Ty D, b.after ts (xs ++ ys) = (b.after ts xs).after ts ys := by
  induction xs with
  | nil => intro b; rfl
  | cons x xs ih =>
    intro b
    simp only [ChannelBackend.after, ChannelBackend.calls, List.cons_append] at ih ⊢
    exact ih _

/-- C1 (amended). In-process FIFO. From a freshly constructed backend with a
buffer `c` that is at least 1 and within the largest size `make` accepts, for
every queue name `Q` and every `n <= c` items that are not nil, each paired
with the destination of the `Get` that will receive it, a non-nil pointer to a
type the item's type is assignable to: the `n` calls `Put(Q, v_i)` all return
a nil error and leave `v_1..v_n` buffered under `Q`; the `n` following calls
`Get(Q, d_i)` return a nil error having stored `v_1..v_n` in exactly that
order; afterwards nothing is buffered under `Q` and a further `Get` blocks. -/
theorem channel_fifo {Ty D : Type} (ts : TypeSystem Ty) (L : Nat) (Q : String) (c : Nat)
    (items : List (Dest Ty × Value Ty D)) (hc : 1 ≤ c) (hL : c ≤ L) (hn : items.length ≤ c)
    (hacc : ∀ p ∈ items, accepts ts p.1 p.2 = true) :
    (((NewChannelBackend Ty D L).Buffer c).calls ts (items.map (fun p => Op.put Q p.2))).1
        = items.map (fun _ => Observed.returned none)
    ∧ (((NewChannelBackend Ty D L).Buffer c).after ts
          (items.map (fun p => Op.put Q p.2))).buffered Q = items.map (fun p => p.2)
    ∧ ((((NewChannelBackend Ty D L).Buffer c).after ts
          (items.map (fun p => Op.put Q p.2))).calls ts (items.map (fun p => Op.get Q p.1))).1
        = items.map (fun p => Observed.got none p.2)
    ∧ (((NewChannelBackend Ty D L).Buffer c).after ts
          (items.map (fun p => Op.put Q p.2) ++ items.map (fun p => Op.get Q p.1))).buffered Q = []
    ∧ ∀ d : Dest Ty, ∃ b,
        (((NewChannelBackend Ty D L).Buffer c).after ts
          (items.map (fun p => Op.put Q p.2) ++ items.map (fun p => Op.get Q p.1))).Get ts Q d
          = .block b := by
  have hobs : items.map (fun p => observedGet ts p.1 p.2)
      = items.map (fun p => Observed.got none p.2) := by
    apply List.map_congr_left
    intro p hp
    simp [observedGet, reflectSet_of_accepts ts p.1 p.2 (hacc p hp)]
  cases items with
  | nil =>
    exact ⟨rfl, rfl, rfl, rfl, fun d => ⟨single Ty D L Q c [], get_fresh ts L Q c hL d⟩⟩
  | cons p items =>
    have hlen : ([p.2] : List (Value Ty D)).length + (items.map (fun p => p.2)).length ≤ c := by
      simp at hn ⊢; omega
    have hputs := calls_puts_single ts L Q c (items.map (fun p => p.2)) [p.2] hlen
    rw [List.map_map] at hputs
    have hputs1 : ((NewChannelBackend Ty D L).Buffer c).calls ts
        ((p :: items).map (fun p => Op.put Q p.2))
        = ((p :: items).map (fun _ => Observed.returned none),
            single Ty D L Q c ((p :: items).map (fun p => p.2))) := by
      simp only [List.map_cons, ChannelBackend.calls, ChannelBackend.call,
        put_fresh L Q c hc hL p.2]
      have hf : (Op.put Q ∘ fun (p : Dest Ty × Value Ty D) => p.2) = fun p => Op.put Q p.2 := rfl
      rw [hf] at hputs
      rw [hputs]
      simp [Function.comp_def]
    have hafter : ((NewChannelBackend Ty D L).Buffer c).after ts
        ((p :: items).map (fun p => Op.put Q p.2))
        = single Ty D L Q c ((p :: items).map (fun p => p.2)) := by
      simp only [ChannelBackend.after, hputs1]
    have hgets := calls_gets_single ts L Q c (p :: items) []
    rw [List.append_nil, hobs] at hgets
    refine ⟨?_, ?_, ?_, ?_, ?_⟩
    · rw [hputs1]
    · rw [hafter, buffered_single]
    · rw [hafter, hgets]
    · rw [after_append, hafter]; simp only [ChannelBackend.after, hgets]
      exact buffered_single L Q c []
    · intro d
      refine ⟨single Ty D L Q c [], ?_⟩
      rw [after_append, hafter]; simp only [ChannelBackend.after, hgets]
      exact get_single_nil ts L Q c d

/-- Witness of C1: the scenario with buffer 2 and queue "jobs". -/
theorem channel_fifo_witness :
    (1 ≤ 2 ∧ 2 ≤ exampleLimit
      ∧ [((Dest.ptr GoTy.int), intV 1), (Dest.ptr GoTy.int, intV 2)].length ≤ 2
      ∧ ∀ p ∈ [((Dest.ptr GoTy.int), intV 1), (Dest.ptr GoTy.int, intV 2)],
          accepts goTypes p.1 p.2 = true)
    ∧ (((NewChannelBackend GoTy Nat exampleLimit).Buffer 2).calls goTypes
        [Op.put "jobs" (intV 1), Op.put "jobs" (intV 2)]).1
        = [Observed.returned none, Observed.returned none]
    ∧ ((((NewChannelBackend GoTy Nat exampleLimit).Buffer 2).after goTypes
        [Op.put "jobs" (intV 1), Op.put "jobs" (intV 2)]).calls goTypes
        [Op.get "jobs" (Dest.ptr GoTy.int), Op.get "jobs" (Dest.ptr GoTy.int)]).1
        = [Observed.got none (intV 1), Observed.got none (intV 2)]
    ∧ ∃ b, (((NewChannelBackend GoTy Nat exampleLimit).Buffer 2).after goTypes
        [Op.put "jobs" (intV 1), Op.put "jobs" (intV 2),
         Op.get "jobs" (Dest.ptr GoTy.int), Op.get "jobs" (Dest.ptr GoTy.int)]).Get goTypes
          "jobs" (Dest.ptr GoTy.int) = .block b :=
  have h := channel_fifo goTypes exampleLimit "jobs" 2
    [((Dest.ptr GoTy.int), intV 1), (Dest.ptr GoTy.int, intV 2)] (by decide) (by decide)
    (by decide) (by decide)
  ⟨⟨by decide, by decide, by decide, by decide⟩, h.1, h.2.2.1, h.2.2.2.2 (Dest.ptr GoTy.int)⟩

/-- Counterexample to C1 as stated. With buffer 2, `Put("jobs", nil)` returns
nil, but the `Get` that receives the nil item panics in the assignment, even
with a pointer to an empty interface as destination, and stores nothing. A
`Get` whose destination has another type than the item panics as well. And
with buffer `math.MaxInt64`, which is at least 1, the first `Put` panics in
`make` instead of returning. -/
theorem channel_fifo_counterexample :
    ((((NewChannelBackend GoTy Nat exampleLimit).Buffer 2).calls goTypes
        [Op.put "jobs" Value.nil, Op.get "jobs" (Dest.ptr GoTy.emptyInterface)]).1
      = [Observed.returned none, Observed.panicked PanicKind.reflectZeroValue])
    ∧ ((((NewChannelBackend GoTy Nat exampleLimit).Buffer 2).calls goTypes
        [Op.put "jobs" (intV 1), Op.get "jobs" (Dest.ptr GoTy.string)]).1
      = [Observed.returned none, Observed.panicked PanicKind.reflectTypeMismatch])
    ∧ (1 ≤ maxInt64
      ∧ ((NewChannelBackend GoTy Nat exampleLimit).Buffer maxInt64).Put "jobs" (intV 1)
        = .panicked .makechanSize ((NewChannelBackend GoTy Nat exampleLimit).Buffer maxInt64)) := by
  refine ⟨by decide, by decide, by decide, by decide⟩

/-! ## C7: RemoveQueue followed by Put -/

theorem chanOf_newest {Ty D : Type} (h : List (Chan Ty D)) (l : List (String × ChanRef))
    (buffer : Int) (L : Nat) (Q : String) (buf : List (Value Ty D)) :
    (newest h l buffer L Q buf).chanOf Q = some (Chan.mk buffer.toNat buf false) := by
  simp [ChannelBackend.chanOf, mapLookup, newest]

theorem send_newest {Ty D : Type} (h : List (Chan Ty D)) (l : List (String × ChanRef))
    (buffer : Int) (L : Nat) (Q : String) (hb : 1 ≤ buffer) (v : Value Ty D) :
    chanSend (newest h l buffer L Q []) (some h.length) v
      = .ret () (newest h l buffer L Q [v]) := by
  have hpos : 0 < buffer.toNat := by omega
  simp only [chanSend, newest, get?_append_length, Bool.false_eq_true, if_false, List.length_nil,
    hpos, if_true, set_append_length, List.nil_append]

theorem get_newest {Ty D : Type} (ts : TypeSystem Ty) (h : List (Chan Ty D))
    (l : List (String × ChanRef)) (buffer : Int) (L : Nat) (Q : String) (x : Value Ty D)
    (rest : List (Value Ty D)) (d : Dest Ty) :
    (newest h l buffer L Q (x :: rest)).call ts (.get Q d)
      = (observedGet ts d x, newest h l buffer L Q rest) := by
  have hg : (newest h l buffer L Q (x :: rest)).getChannel Q
      = .ret (some h.length) (newest h l buffer L Q (x :: rest)) :=
    getChannel_mapped _ Q (some h.length) (by simp [mapLookup, newest])
  have hr : chanRecv (newest h l buffer L Q (x :: rest)) (some h.length)
      = .ret x (newest h l buffer L Q rest) := by
    simp only [chanRecv, newest, get?_append_length, set_append_length]
  simp only [ChannelBackend.call, ChannelBackend.Get, hg, hr, observedGet]
  cases reflectSet ts d x <;> rfl

/-- C7 (amended). For every backend state and queue name `Q`, whatever `Q`
holds, `RemoveQueue(Q)` returns nil, leaves the channels and the configured
buffer as they are, removes the entry of `Q` and keeps every other name's
entry, channel and buffered items.  When moreover the channel map is not nil
and the configured buffer is at least 1 and within the largest size `make`
accepts, the lookup of a following `Put(Q, v)` creates a new empty channel of
the configured capacity and the `Put` returns nil leaving exactly `v` in it;
the next `Get(Q, d)` takes the item out, leaving the queue empty, and when `v`
is not nil and `d` is a non-nil pointer to a type that the type of `v` is
assignable to, it returns a nil error having stored `v`, not an item of the
old buffer. -/
theorem remove_then_put_is_fresh {Ty D : Type} (ts : TypeSystem Ty) (b : ChannelBackend Ty D)
    (Q : String) (v : Value Ty D) :
    b.RemoveQueue Q = .ret none (b.RemoveQueue Q).state
    ∧ (b.RemoveQueue Q).state.heap = b.heap
    ∧ (b.RemoveQueue Q).state.buffer = b.buffer
    ∧ mapLookup (b.RemoveQueue Q).state.channels Q = none
    ∧ (∀ q, q ≠ Q → mapLookup (b.RemoveQueue Q).state.channels q = mapLookup b.channels q
        ∧ (b.RemoveQueue Q).state.chanOf q = b.chanOf q
        ∧ (b.RemoveQueue Q).state.buffered q = b.buffered q)
    ∧ (b.channels ≠ none → 1 ≤ b.buffer → b.buffer ≤ (b.makeLimit : Int) →
        (b.RemoveQueue Q).state.getChannel Q
            = .ret (some b.heap.length) ((b.RemoveQueue Q).state.getChannel Q).state
        ∧ ((b.RemoveQueue Q).state.getChannel Q).state.chanOf Q
            = some (Chan.mk b.buffer.toNat [] false)
        ∧ (b.RemoveQueue Q).state.Put Q v = .ret none ((b.RemoveQueue Q).state.Put Q v).state
        ∧ ((b.RemoveQueue Q).state.Put Q v).state.chanOf Q
            = some (Chan.mk b.buffer.toNat [v] false)
        ∧ ∀ d, (((b.RemoveQueue Q).state.Put Q v).state.call ts (.get Q d)).2.buffered Q = []
            ∧ (accepts ts d v = true →
                (((b.RemoveQueue Q).state.Put Q v).state.call ts (.get Q d)).1 = .got none v)) := by
  refine ⟨rfl, rfl, rfl, removeQueue_lookup_self b Q, ?_, ?_⟩
  · intro q hq
    have h1 := removeQueue_lookup_ne b Q q hq
    have h2 : (b.RemoveQueue Q).state.chanOf q = b.chanOf q := by
      simp only [ChannelBackend.chanOf, h1]; rfl
    exact ⟨h1, h2, by simp only [ChannelBackend.buffered, h2]⟩
  · intro hmap hbuf hlim
    obtain ⟨heap, channels, buffer, L⟩ := b
    cases channels with
    | none => exact absurd rfl hmap
    | some l =>
      have hb1 : (1 : Int) ≤ buffer := hbuf
      have hb0 : (0 : Int) ≤ buffer := by omega
      have hg : (ChannelBackend.RemoveQueue ⟨heap, some l, buffer, L⟩ Q).state.getChannel Q
          = .ret (some heap.length) (newest heap (l.filter (fun p => p.1 != Q)) buffer L Q []) :=
        getChannel_absent _ Q (l.filter (fun p => p.1 != Q)) rfl
          (removeQueue_lookup_self _ Q) hb0 hlim
      have hp : (ChannelBackend.RemoveQueue ⟨heap, some l, buffer, L⟩ Q).state.Put Q v
          = .ret none (newest heap (l.filter (fun p => p.1 != Q)) buffer L Q [v]) := by
        simp only [ChannelBackend.Put, hg, send_newest heap _ buffer L Q hbuf v]
      have hget := fun d => get_newest ts heap (l.filter (fun p => p.1 != Q)) buffer L Q v [] d
      refine ⟨?_, ?_, ?_, ?_, ?_⟩
      · rw [hg]; rfl
      · rw [hg]; exact chanOf_newest _ _ _ _ _ _
      · rw [hp]; rfl
      · rw [hp]; exact chanOf_newest _ _ _ _ _ _
      · intro d
        rw [hp]
        simp only [Outcome.state, hget d]
        refine ⟨?_, ?_⟩
        · simp only [ChannelBackend.buffered, chanOf_newest]
        · intro hacc; simp only [observedGet, reflectSet_of_accepts ts d v hacc]

/-- Witness of C7: queue "q" still holds 7 when it is removed; 8 is put and got. -/
theorem remove_then_put_is_fresh_witness :
    ((single GoTy Nat exampleLimit "q" 1 [intV 7]).channels ≠ none
      ∧ 1 ≤ (single GoTy Nat exampleLimit "q" 1 [intV 7]).buffer
      ∧ (single GoTy Nat exampleLimit "q" 1 [intV 7]).buffer
          ≤ ((single GoTy Nat exampleLimit "q" 1 [intV 7]).makeLimit : Int)
      ∧ accepts goTypes (Dest.ptr GoTy.int) (intV 8) = true)
    ∧ (single GoTy Nat exampleLimit "q" 1 [intV 7]).buffered "q" = [intV 7]
    ∧ (((single GoTy Nat exampleLimit "q" 1 [intV 7]).RemoveQueue "q").state.Put "q"
        (intV 8)).state.chanOf "q" = some (Chan.mk 1 [intV 8] false)
    ∧ (((((single GoTy Nat exampleLimit "q" 1 [intV 7]).RemoveQueue "q").state.Put "q"
        (intV 8)).state.call goTypes (.get "q" (.ptr .int))).1 = .got none (intV 8)) :=
  have h := (remove_then_put_is_fresh goTypes (single GoTy Nat exampleLimit "q" 1 [intV 7]) "q"
    (intV 8)).2.2.2.2.2 (by decide) (by decide) (by decide)
  ⟨⟨by decide, by decide, by decide, by decide⟩, by decide, h.2.2.2.1,
    ((h.2.2.2.2 (.ptr .int)).2 (by decide))⟩

/-- Counterexample to C7 as stated. In each of these states `RemoveQueue("q")`
returns nil, but what follows is not what the claim says: with buffer -1 and
with buffer `math.MaxInt64` the `Put` panics in `make`; with a nil channel map
it panics on the assignment to the map; with buffer 0 the `Put` makes a
channel without room and blocks; with buffer 1 and the value nil the `Put`
returns but the next `Get` panics in the assignment even with a pointer to an
empty interface as destination; and a `Get` whose destination has another
type than `v` panics as well. -/
theorem remove_then_put_counterexample :
    (((NewChannelBackend GoTy Nat exampleLimit).Buffer (-1)).RemoveQueue "q"
        = .ret none ((NewChannelBackend GoTy Nat exampleLimit).Buffer (-1))
      ∧ ((NewChannelBackend GoTy Nat exampleLimit).Buffer (-1)).Put "q" (intV 1)
        = .panicked .makechanSize ((NewChannelBackend GoTy Nat exampleLimit).Buffer (-1)))
    ∧ (((NewChannelBackend GoTy Nat exampleLimit).Buffer maxInt64).RemoveQueue "q"
        = .ret none ((NewChannelBackend GoTy Nat exampleLimit).Buffer maxInt64)
      ∧ ((NewChannelBackend GoTy Nat exampleLimit).Buffer maxInt64).Put "q" (intV 1)
        = .panicked .makechanSize ((NewChannelBackend GoTy Nat exampleLimit).Buffer maxInt64))
    ∧ (((NewChannelBackend GoTy Nat exampleLimit).Channels none).RemoveQueue "q"
        = .ret none ((NewChannelBackend GoTy Nat exampleLimit).Channels none)
      ∧ ∃ b, ((NewChannelBackend GoTy Nat exampleLimit).Channels none).Put "q" (intV 1)
        = .panicked .nilMapAssign b)
    ∧ (((NewChannelBackend GoTy Nat exampleLimit).Buffer 0).RemoveQueue "q"
        = .ret none ((NewChannelBackend GoTy Nat exampleLimit).Buffer 0)
      ∧ ((NewChannelBackend GoTy Nat exampleLimit).Buffer 0).Put "q" (intV 1)
        = .block (newest [] [] 0 exampleLimit "q" []))
    ∧ ((((NewChannelBackend GoTy Nat exampleLimit).Buffer 1).calls goTypes
          [Op.remove "q", Op.put "q" Value.nil, Op.get "q" (Dest.ptr GoTy.emptyInterface)]).1
        = [Observed.returned none, Observed.returned none,
            Observed.panicked PanicKind.reflectZeroValue])
    ∧ ((((NewChannelBackend GoTy Nat exampleLimit).Buffer 1).calls goTypes
          [Op.remove "q", Op.put "q" (intV 1), Op.get "q" (Dest.ptr GoTy.string)]).1
        = [Observed.returned none, Observed.returned none,
            Observed.panicked PanicKind.reflectTypeMismatch]) := by
  refine ⟨⟨by decide, by decide⟩, ⟨by decide, by decide⟩, ⟨by decide, ⟨_, rfl⟩⟩,
    ⟨by decide, by decide⟩, by decide, by decide⟩

/-! ## C9: the failures of Put -/

/-- Every way a `Put` can end, from any state. -/
theorem put_outcome {Ty D : Type} (b : ChannelBackend Ty D) (q : String) (v : Value Ty D) :
    (∃ b1, b.Put q v = .ret none b1)
    ∨ (∃ b1, b.Put q v = .block b1)
    ∨ (∃ b1 i c, b.Put q v = .panicked .sendClosed b1
        ∧ mapLookup b1.channels q = some (some i) ∧ b1.heap.get? i = some c ∧ c.closed = true)
    ∨ (b.Put q v = .panicked .makechanSize b
        ∧ (b.buffer < 0 ∨ (b.makeLimit : Int) < b.buffer))
    ∨ (∃ b1, b.Put q v = .panicked .nilMapAssign b1 ∧ b.channels = none) := by
  have hsend : ∀ (b1 : ChannelBackend Ty D) (ch : ChanRef),
      b.getChannel q = .ret ch b1 → mapLookup b1.channels q = some ch →
      (∃ b2, b.Put q v = .ret none b2)
      ∨ (∃ b2, b.Put q v = .block b2)
      ∨ (∃ b2 i c, b.Put q v = .panicked .sendClosed b2
          ∧ mapLookup b2.channels q = some (some i) ∧ b2.heap.get? i = some c
          ∧ c.closed = true) := by
    intro b1 ch hg hl
    cases ch with
    | none => right; left; exact ⟨b1, by simp [ChannelBackend.Put, hg, chanSend]⟩
    | some i =>
      cases hc : b1.heap.get? i with
      | none =>
        have hs : chanSend b1 (some i) v = .block b1 := by simp only [chanSend, hc]
        right; left; exact ⟨b1, by simp [ChannelBackend.Put, hg, hs]⟩
      | some c =>
        by_cases h1 : c.closed = true
        · have hs : chanSend b1 (some i) v = .panicked .sendClosed b1 := by
            simp only [chanSend, hc, h1, if_true]
          right; right
          exact ⟨b1, i, c, by simp [ChannelBackend.Put, hg, hs], hl, hc, h1⟩
        · by_cases h2 : c.buf.length < c.cap
          · have hs : chanSend b1 (some i) v = .ret () (b1.pushAt i c v) := by
              simp only [chanSend, hc, h1, h2, if_true, ChannelBackend.pushAt]; rfl
            left; exact ⟨b1.pushAt i c v, by simp [ChannelBackend.Put, hg, hs]⟩
          · have hs : chanSend b1 (some i) v = .block b1 := by
              simp only [chanSend, hc, h1, h2]; rfl
            right; left; exact ⟨b1, by simp [ChannelBackend.Put, hg, hs]⟩
  rcases getChannel_cases b q with
    ⟨r, hr, hg⟩ | ⟨_, hrange, hg⟩ | ⟨hnil, _, _, hg⟩ | ⟨l, _, _, _, _, hg⟩
  · rcases hsend b r hg hr with h | h | h
    · exact Or.inl h
    · exact Or.inr (Or.inl h)
    · exact Or.inr (Or.inr (Or.inl h))
  · right; right; right; left
    exact ⟨by simp [ChannelBackend.Put, hg], hrange⟩
  · right; right; right; right
    exact ⟨{ b with heap := b.heap ++ [Chan.mk b.buffer.toNat [] false] },
      by simp only [ChannelBackend.Put, hg], hnil⟩
  · rcases hsend _ _ hg (getChannel_ret_lookup b _ q _ hg) with h | h | h
    · exact Or.inl h
    · exact Or.inr (Or.inl h)
    · exact Or.inr (Or.inr (Or.inl h))

/-- C9 (amended). For every backend whose channel map is not nil and whose
configured buffer is neither negative nor beyond the largest size `make`
accepts, after any sequence of calls, a `Put` of any value on any queue name
returns a nil error, or blocks, or panics by a send on a closed channel, the
channel of that name being closed: it fails in no other way. And every `Put`
that returns, from any state whatever, returns a nil error. -/
theorem put_fails_only_on_closed {Ty D : Type} (ts : TypeSystem Ty) (b : ChannelBackend Ty D)
    (ops : List (Op Ty D)) (q : String) (v : Value Ty D) :
    (b.channels ≠ none → 0 ≤ b.buffer → b.buffer ≤ (b.makeLimit : Int) →
      (∃ b1, (b.after ts ops).Put q v = .ret none b1)
      ∨ (∃ b1, (b.after ts ops).Put q v = .block b1)
      ∨ (∃ b1 i c, (b.after ts ops).Put q v = .panicked .sendClosed b1
          ∧ mapLookup b1.channels q = some (some i) ∧ b1.heap.get? i = some c
          ∧ c.closed = true))
    ∧ (∀ e b1, (b.after ts ops).Put q v = .ret e b1 → e = none) := by
  constructor
  · intro hmap hbuf hlim
    have hcfg := after_config ts ops b
    have hL := after_makeLimit ts ops b
    rcases put_outcome (b.after ts ops) q v with h | h | h | ⟨_, hrange⟩ | ⟨_, _, hnil⟩
    · exact Or.inl h
    · exact Or.inr (Or.inl h)
    · exact Or.inr (Or.inr h)
    · exfalso
      rw [hcfg.1, hL] at hrange
      omega
    · exfalso
      have h2 := hcfg.2
      rw [hnil] at h2
      cases hc : b.channels with
      | none => exact hmap hc
      | some l => rw [hc] at h2; exact Bool.noConfusion h2
  · intro e b1 h
    rcases put_outcome (b.after ts ops) q v with ⟨_, h2⟩ | ⟨_, h2⟩ | ⟨_, _, _, h2, _⟩
        | ⟨h2, _⟩ | ⟨_, h2, _⟩
    · rw [h2] at h; injection h with he _; exact he.symm
    all_goals (rw [h2] at h; exact Outcome.noConfusion h)

/-- Witness of C9: the caller supplies a closed channel under "c"; after a
`Put` and a `Get` on a new queue "q", a `Put` on "c" panics with the send on
the closed channel, and a `Put` on "q" returns nil. -/
theorem put_fails_only_on_closed_witness :
    (((callerMade exampleLimit [Chan.mk 1 [] true] : ChannelBackend GoTy Nat).Channels
        (some [("c", some 0)])).channels ≠ none
      ∧ 0 ≤ ((callerMade exampleLimit [Chan.mk 1 [] true] : ChannelBackend GoTy Nat).Channels
        (some [("c", some 0)])).buffer
      ∧ ((callerMade exampleLimit [Chan.mk 1 [] true] : ChannelBackend GoTy Nat).Channels
        (some [("c", some 0)])).buffer
          ≤ (((callerMade exampleLimit [Chan.mk 1 [] true] : ChannelBackend GoTy Nat).Channels
        (some [("c", some 0)])).makeLimit : Int))
    ∧ ((∃ b1, (((callerMade exampleLimit [Chan.mk 1 [] true] : ChannelBackend GoTy Nat).Channels
          (some [("c", some 0)])).after goTypes
            [Op.put "q" (intV 1), Op.get "q" (Dest.ptr GoTy.int)]).Put "c" (intV 2)
          = .ret none b1)
      ∨ (∃ b1, (((callerMade exampleLimit [Chan.mk 1 [] true] : ChannelBackend GoTy Nat).Channels
          (some [("c", some 0)])).after goTypes
            [Op.put "q" (intV 1), Op.get "q" (Dest.ptr GoTy.int)]).Put "c" (intV 2)
          = .block b1)
      ∨ (∃ b1 i c, (((callerMade exampleLimit [Chan.mk 1 [] true] :
          ChannelBackend GoTy Nat).Channels (some [("c", some 0)])).after goTypes
            [Op.put "q" (intV 1), Op.get "q" (Dest.ptr GoTy.int)]).Put "c" (intV 2)
          = .panicked .sendClosed b1
          ∧ mapLookup b1.channels "c" = some (some i) ∧ b1.heap.get? i = some c
          ∧ c.closed = true))
    ∧ (((callerMade exampleLimit [Chan.mk 1 [] true] : ChannelBackend GoTy Nat).Channels
          (some [("c", some 0)])).after goTypes
            [Op.put "q" (intV 1), Op.get "q" (Dest.ptr GoTy.int)]).Put "c" (intV 2)
        = .panicked .sendClosed
            (((callerMade exampleLimit [Chan.mk 1 [] true] : ChannelBackend GoTy Nat).Channels
              (some [("c", some 0)])).after goTypes
                [Op.put "q" (intV 1), Op.get "q" (Dest.ptr GoTy.int)])
    ∧ ∃ b1, (((callerMade exampleLimit [Chan.mk 1 [] true] : ChannelBackend GoTy Nat).Channels
          (some [("c", some 0)])).after goTypes
            [Op.put "q" (intV 1), Op.get "q" (Dest.ptr GoTy.int)]).Put "q" (intV 3)
        = .ret none b1 :=
  ⟨⟨by decide, by decide, by decide⟩,
    (put_fails_only_on_closed goTypes
      ((callerMade exampleLimit [Chan.mk 1 [] true]).Channels (some [("c", some 0)]))
      [Op.put "q" (intV 1), Op.get "q" (Dest.ptr GoTy.int)] "c" (intV 2)).1
      (by decide) (by decide) (by decide),
    by decide, ⟨_, rfl⟩⟩

/-- Counterexample to C9 as stated: after `Buffer(-1)` and after
`Buffer(math.MaxInt64)` a `Put` on a new queue panics in `make`, and after
`Channels(nil)` it panics on the assignment to the nil map; none of these is a
send on a closed channel. -/
theorem put_failure_counterexample :
    (((NewChannelBackend GoTy Nat exampleLimit).Buffer (-1)).Put "q" (intV 1)
        = .panicked .makechanSize ((NewChannelBackend GoTy Nat exampleLimit).Buffer (-1))
      ∧ PanicKind.makechanSize ≠ PanicKind.sendClosed)
    ∧ (((NewChannelBackend GoTy Nat exampleLimit).Buffer maxInt64).Put "q" (intV 1)
        = .panicked .makechanSize ((NewChannelBackend GoTy Nat exampleLimit).Buffer maxInt64)
      ∧ PanicKind.makechanSize ≠ PanicKind.sendClosed)
    ∧ ((∃ b, ((NewChannelBackend GoTy Nat exampleLimit).Channels none).Put "q" (intV 1)
        = .panicked .nilMapAssign b)
      ∧ PanicKind.nilMapAssign ≠ PanicKind.sendClosed) := by
  refine ⟨⟨by decide, by decide⟩, ⟨by decide, by decide⟩, ⟨⟨_, rfl⟩, by decide⟩⟩

/-! ## C10: the channel a name is mapped to -/

/-- C10 (amended). For every backend state, if a `getChannel` lookup of `Q`
yields a channel, then after any sequence of `Put`, `Get` and `RemoveQueue`
calls that contains no `RemoveQueue(Q)`, a lookup of `Q` yields the same
channel and changes nothing. -/
theorem getChannel_stable {Ty D : Type} (ts : TypeSystem Ty) (b b1 : ChannelBackend Ty D)
    (Q : String) (r1 : ChanRef) (ops : List (Op Ty D))
    (h1 : b.getChannel Q = .ret r1 b1) (hops : ∀ op ∈ ops, op ≠ Op.remove Q) :
    (b1.after ts ops).getChannel Q = .ret r1 (b1.after ts ops) := by
  have hm : mapLookup b1.channels Q = some r1 := by
    simp only [ChannelBackend.getChannel] at h1
    split at h1
    · rename_i r hr
      injection h1 with e1 e2
      rw [← e2, ← e1]; exact hr
    · split at h1
      · exact Outcome.noConfusion h1
      · split at h1
        · exact Outcome.noConfusion h1
        · injection h1 with e1 e2
          rw [← e2, ← e1]
          simp [mapLookup]
  exact getChannel_mapped _ Q r1 (after_lookup_keep ts Q r1 ops b1 hops hm)

/-- Witness of C10: two queues in use, the first lookup of "a" and a later one agree. -/
theorem getChannel_stable_witness :
    ((NewChannelBackend GoTy Nat exampleLimit).getChannel "a"
        = .ret (some 0) ((NewChannelBackend GoTy Nat exampleLimit).getChannel "a").state
      ∧ ∀ op ∈ [Op.put "a" (intV 1), Op.put "b" (intV 2), Op.remove "b",
          Op.get "a" (Dest.ptr GoTy.int)], op ≠ Op.remove "a")
    ∧ ((((NewChannelBackend GoTy Nat exampleLimit).getChannel "a").state.after goTypes
        [Op.put "a" (intV 1), Op.put "b" (intV 2), Op.remove "b",
          Op.get "a" (Dest.ptr GoTy.int)]).getChannel "a"
        = .ret (some 0) ((((NewChannelBackend GoTy Nat exampleLimit).getChannel "a").state.after goTypes
        [Op.put "a" (intV 1), Op.put "b" (intV 2), Op.remove "b",
          Op.get "a" (Dest.ptr GoTy.int)]))) :=
  ⟨⟨by decide, by decide⟩,
    getChannel_stable goTypes (NewChannelBackend GoTy Nat exampleLimit) _ "a" (some 0) _ (by decide) (by decide)⟩

/-- Counterexample to C10 as stated: a lookup of "q", then `RemoveQueue("q")`,
then a second lookup of "q" yield two different channels. -/
theorem getChannel_identity_counterexample :
    (NewChannelBackend GoTy Nat exampleLimit).getChannel "q"
        = .ret (some 0) ((NewChannelBackend GoTy Nat exampleLimit).getChannel "q").state
    ∧ ((((NewChannelBackend GoTy Nat exampleLimit).getChannel "q").state.RemoveQueue "q").state.getChannel "q")
        = .ret (some 1)
            ((((NewChannelBackend GoTy Nat exampleLimit).getChannel "q").state.RemoveQueue "q").state.getChannel
              "q").state
    ∧ (some 0 : ChanRef) ≠ some 1 := by
  refine ⟨by decide, by decide, by decide⟩

/-! ## C8: the assignment made by Get -/

/-- C8 (amended). For every backend state in which the head item of queue
`Q` is `x`: `Get(Q, dest)` removes `x` from the queue whatever `dest` is; and
when `x` is not nil, of dynamic type `ty`, and `dest` is a non-nil pointer with
element type `T`, the call returns (with a nil error and the destination
holding `x`) if and only if `ty` is assignable to `T`, and otherwise panics
with the type mismatch of the assignment. -/
theorem get_assigns_by_type {Ty D : Type} (ts : TypeSystem Ty) (b : ChannelBackend Ty D)
    (Q : String) (i : Nat) (c : Chan Ty D) (x : Value Ty D) (rest : List (Value Ty D))
    (hq : mapLookup b.channels Q = some (some i)) (hc : b.heap.get? i = some c)
    (hbuf : c.buf = x :: rest) :
    (∀ d, (b.Get ts Q d).state = b.popAt i c rest)
    ∧ ∀ ty p T, x = .dyn ty p →
        ((∃ r b1, b.Get ts Q (.ptr T) = .ret r b1) ↔ ts.assignable ty T = true)
        ∧ (ts.assignable ty T = true →
            b.Get ts Q (.ptr T) = .ret ⟨none, x⟩ (b.popAt i c rest))
        ∧ (ts.assignable ty T = false →
            b.Get ts Q (.ptr T) = .panicked .reflectTypeMismatch (b.popAt i c rest)) := by
  constructor
  · intro d
    rw [get_mapped_cons ts b Q i c x rest d hq hc hbuf]
    cases reflectSet ts d x <;> rfl
  · intro ty p T hx
    have hg := get_mapped_cons ts b Q i c x rest (.ptr T) hq hc hbuf
    subst hx
    by_cases ha : ts.assignable ty T = true
    · have hr : reflectSet ts (.ptr T) (Value.dyn ty p) = .ok (Value.dyn ty p) := by
        simp [reflectSet, ha]
      rw [hr] at hg
      refine ⟨⟨fun _ => ha, fun _ => ⟨_, _, hg⟩⟩, fun _ => hg, fun hf => ?_⟩
      rw [ha] at hf; exact Bool.noConfusion hf
    · have hr : reflectSet ts (.ptr T) (Value.dyn ty p) = .error .reflectTypeMismatch := by
        simp [reflectSet, ha]
      rw [hr] at hg
      refine ⟨⟨fun ⟨r, b1, h⟩ => ?_, fun h => absurd h ha⟩, fun h => absurd h ha, fun _ => hg⟩
      rw [hg] at h; exact Outcome.noConfusion h

/-- Witness of C8: the head of "q" is the int 1; a `*int` and a pointer to an
empty interface receive it, a `*string` panics; the item is consumed each time. -/
theorem get_assigns_by_type_witness :
    (mapLookup (single GoTy Nat exampleLimit "q" 2 [intV 1, intV 2]).channels "q" = some (some 0)
      ∧ (single GoTy Nat exampleLimit "q" 2 [intV 1, intV 2]).heap.get? 0
          = some (Chan.mk 2 [intV 1, intV 2] false))
    ∧ (single GoTy Nat exampleLimit "q" 2 [intV 1, intV 2]).Get goTypes "q" (.ptr .int)
        = .ret ⟨none, intV 1⟩ (single GoTy Nat exampleLimit "q" 2 [intV 2])
    ∧ (single GoTy Nat exampleLimit "q" 2 [intV 1, intV 2]).Get goTypes "q" (.ptr .emptyInterface)
        = .ret ⟨none, intV 1⟩ (single GoTy Nat exampleLimit "q" 2 [intV 2])
    ∧ (single GoTy Nat exampleLimit "q" 2 [intV 1, intV 2]).Get goTypes "q" (.ptr .string)
        = .panicked .reflectTypeMismatch (single GoTy Nat exampleLimit "q" 2 [intV 2]) :=
  have h := (get_assigns_by_type goTypes (single GoTy Nat exampleLimit "q" 2 [intV 1, intV 2]) "q" 0
    (Chan.mk 2 [intV 1, intV 2] false) (intV 1) [intV 2] (by decide) (by decide) rfl).2
  ⟨⟨by decide, by decide⟩, (h .int 1 .int rfl).2.1 (by decide),
    (h .int 1 .emptyInterface rfl).2.1 (by decide), (h .int 1 .string rfl).2.2 (by decide)⟩

/-- Counterexample to C8 as stated: a nil head item is compatible with a
pointer to an empty interface, yet `Get` panics (and consumes the item); and a
nil `*int` destination has element type `int`, compatible with the head item
1, yet `Get` panics. -/
theorem get_assigns_counterexample :
    (compatible goTypes (Value.nil : Value GoTy Nat) GoTy.emptyInterface = true
      ∧ (single GoTy Nat exampleLimit "q" 1 [Value.nil]).Get goTypes "q" (.ptr .emptyInterface)
          = .panicked .reflectZeroValue (single GoTy Nat exampleLimit "q" 1 []))
    ∧ (compatible goTypes (intV 1) GoTy.int = true
      ∧ (single GoTy Nat exampleLimit "q" 1 [intV 1]).Get goTypes "q" (.nilPtr .int)
          = .panicked .reflectUnsettable (single GoTy Nat exampleLimit "q" 1 [])) := by
  refine ⟨⟨by decide, by decide⟩, ⟨by decide, by decide⟩⟩

/-! ## C6: backpressure -/

theorem createdOk_getChannel {Ty D : Type} (b : ChannelBackend Ty D) (q : String) (h0 N : Nat)
    (hN : b.buffer = (N : Int)) (h : b.CreatedOk h0 N) :
    (b.getChannel q).state.CreatedOk h0 N := by
  have happ : ∀ i c, h0 ≤ i →
      (b.heap ++ [Chan.mk b.buffer.toNat [] false]).get? i = some c →
      c.cap = N ∧ c.buf.length ≤ N ∧ c.closed = false := by
    intro i c hi hc
    rcases get?_append_single _ _ _ _ hc with hold | ⟨_, hnew⟩
    · exact h i c hi hold
    · rw [hnew, hN]; simp
  rcases getChannel_cases b q with ⟨r, _, hg⟩ | ⟨_, _, hg⟩ | ⟨_, _, _, hg⟩ | ⟨l, _, _, _, _, hg⟩
  · rw [hg]; exact h
  · rw [hg]; exact h
  · rw [hg]; exact happ
  · rw [hg]; exact happ

theorem createdOk_pushAt {Ty D : Type} (b : ChannelBackend Ty D) (h0 N : Nat) (i : Nat)
    (c : Chan Ty D) (v : Value Ty D) (h : b.CreatedOk h0 N) (hc : b.heap.get? i = some c)
    (hroom : c.buf.length < c.cap) : (b.pushAt i c v).CreatedOk h0 N := by
  intro j c2 hj hc2
  rcases get?_set_cases _ _ _ _ _ hc2 with ⟨hji, hnew⟩ | ⟨_, hold⟩
  · have hcj := h i c (hji ▸ hj) hc
    rw [hnew]
    refine ⟨hcj.1, ?_, hcj.2.2⟩
    simp only [List.length_append, List.length_singleton]
    have := hcj.1
    omega
  · exact h j c2 hj hold

theorem createdOk_popAt {Ty D : Type} (b : ChannelBackend Ty D) (h0 N : Nat) (i : Nat)
    (c : Chan Ty D) (x : Value Ty D) (rest : List (Value Ty D)) (h : b.CreatedOk h0 N)
    (hc : b.heap.get? i = some c) (hbuf : c.buf = x :: rest) :
    (b.popAt i c rest).CreatedOk h0 N := by
  intro j c2 hj hc2
  rcases get?_set_cases _ _ _ _ _ hc2 with ⟨hji, hnew⟩ | ⟨_, hold⟩
  · have hcj := h i c (hji ▸ hj) hc
    rw [hnew]
    refine ⟨hcj.1, ?_, hcj.2.2⟩
    have h2 := hcj.2.1
    rw [hbuf] at h2
    simp only [List.length_cons] at h2
    show rest.length ≤ N
    omega
  · exact h j c2 hj hold

theorem createdOk_call {Ty D : Type} (ts : TypeSystem Ty) (b : ChannelBackend Ty D)
    (op : Op Ty D) (h0 N : Nat) (hN : b.buffer = (N : Int)) (h : b.CreatedOk h0 N) :
    (b.call ts op).2.CreatedOk h0 N := by
  rw [call_state]
  cases op with
  | put q v =>
    have hg := createdOk_getChannel b q h0 N hN h
    rcases put_cases b q v with ⟨i, c, _, hc, _, hroom, hp⟩ | ⟨_, hst⟩
    · simp only [hp, Outcome.state]
      exact createdOk_pushAt _ h0 N i c v hg hc hroom
    · simp only [hst]; exact hg
  | get q d =>
    have hg := createdOk_getChannel b q h0 N hN h
    rcases get_cases ts b q d with ⟨i, c, x, rest, _, hc, hbuf, hp⟩ | ⟨_, hst⟩
    · have hst : (b.Get ts q d).state = (b.getChannel q).state.popAt i c rest := by
        rw [hp]; cases reflectSet ts d x <;> rfl
      simp only [hst]
      exact createdOk_popAt _ h0 N i c x rest hg hc hbuf
    · simp only [hst]; exact hg
  | remove q => exact h

theorem createdOk_after {Ty D : Type} (ts : TypeSystem Ty) (h0 N : Nat)
    (ops : List (Op Ty D)) :
    ∀ b : ChannelBackend Ty D, b.buffer = (N : Int) → b.CreatedOk h0 N →
      (b.after ts ops).CreatedOk h0 N := by
  induction ops with
  | nil => intro b _ h; exact h
  | cons op ops ih =>
    intro b hN h
    have h1 := createdOk_call ts b op h0 N hN h
    have h2 := ih (b.call ts op).2 ((call_config ts b op).1.trans hN) h1
    simpa only [ChannelBackend.after, ChannelBackend.calls] using h2

/-- C6. In-process backpressure. Take any backend whose configured buffer is
`N >= 1` and any sequence of `Put`, `Get` and `RemoveQueue` calls on it. In
the state reached, for every queue name `Q` mapped to a channel `c` that the
backend created (one that did not exist at the start): `c` has capacity `N`
and holds at most `N` items; a `Put(Q, v)` returns if and only if `c` holds
fewer than `N` items, and otherwise blocks; and when `c` holds `N` items, any
`Get(Q, d)` takes one item out, after which both the blocked send on `c` and
a `Put(Q, v)` return. -/
theorem channel_backpressure {Ty D : Type} (ts : TypeSystem Ty) (b0 : ChannelBackend Ty D)
    (N : Nat) (ops : List (Op Ty D)) (Q : String) (i : Nat) (c : Chan Ty D)
    (hN : 1 ≤ N) (hbuf : b0.buffer = (N : Int))
    (hq : mapLookup (b0.after ts ops).channels Q = some (some i))
    (hnew : b0.heap.length ≤ i) (hc : (b0.after ts ops).heap.get? i = some c) :
    c.cap = N ∧ c.buf.length ≤ N
    ∧ (∀ v, (∃ e b1, (b0.after ts ops).Put Q v = .ret e b1) ↔ c.buf.length < N)
    ∧ (∀ v, c.buf.length = N → (b0.after ts ops).Put Q v = .block (b0.after ts ops))
    ∧ (c.buf.length = N → ∀ d v,
        (∃ b2, chanSend ((b0.after ts ops).call ts (.get Q d)).2 (some i) v = .ret () b2)
        ∧ (∃ b2, ((b0.after ts ops).call ts (.get Q d)).2.Put Q v = .ret none b2)
        ∧ (((b0.after ts ops).call ts (.get Q d)).2.buffered Q).length = N - 1) := by
  have hinv : (b0.after ts ops).CreatedOk b0.heap.length N :=
    createdOk_after ts b0.heap.length N ops b0 hbuf (by
      intro j c2 hj hc2
      rw [List.get?_eq_getElem?, List.getElem?_eq_none hj] at hc2
      exact Option.noConfusion hc2)
  obtain ⟨hcap, hlen, hopen⟩ := hinv i c hnew hc
  have hput := fun v => put_mapped (b0.after ts ops) Q i c v hq hc
  refine ⟨hcap, hlen, ?_, ?_, ?_⟩
  · intro v
    rw [hput v]
    by_cases hlt : c.buf.length < N
    · simp only [hopen, hcap, hlt, if_true, Bool.false_eq_true, if_false, iff_true]
      exact ⟨_, _, rfl⟩
    · simp only [hopen, hcap, hlt, Bool.false_eq_true, if_false, iff_false]
      rintro ⟨e, b1, h⟩
      exact Outcome.noConfusion h
  · intro v hfull
    rw [hput v]
    have hlt : ¬ c.buf.length < N := by omega
    simp only [hopen, hcap, hlt, Bool.false_eq_true, if_false]
  · intro hfull d v
    cases hb : c.buf with
    | nil => rw [hb] at hfull; simp at hfull; omega
    | cons x rest =>
      have hcall := call_get_mapped_cons ts (b0.after ts ops) Q i c x rest d hq hc hb
      have hlt : i < (b0.after ts ops).heap.length := by
        rw [List.get?_eq_getElem?] at hc
        exact (List.getElem?_eq_some.mp hc).1
      have hc2 : ((b0.after ts ops).popAt i c rest).heap.get? i
          = some { c with buf := rest } := by
        simp only [ChannelBackend.popAt, List.get?_eq_getElem?]
        exact List.getElem?_set_self hlt
      have hrest : rest.length < N := by
        rw [hb] at hfull; simp only [List.length_cons] at hfull; omega
      have hq2 : mapLookup ((b0.after ts ops).popAt i c rest).channels Q = some (some i) := hq
      have hp2 := put_mapped ((b0.after ts ops).popAt i c rest) Q i { c with buf := rest } v
        hq2 hc2
      simp only [hopen, hcap, hrest, if_true, Bool.false_eq_true, if_false] at hp2
      rw [hcall]
      refine ⟨?_, ⟨_, hp2⟩, ?_⟩
      · refine ⟨(((b0.after ts ops).popAt i c rest).pushAt i { c with buf := rest } v), ?_⟩
        simp only [chanSend, hc2, hopen, hcap, hrest, if_true, Bool.false_eq_true, if_false,
          ChannelBackend.pushAt]
      · simp only [ChannelBackend.buffered, ChannelBackend.chanOf, hq2, hc2]
        rw [hb] at hfull; simp only [List.length_cons] at hfull; omega

/-- Witness of C6: buffer 1; the first `Put` returned, a second one blocks
until a `Get` has taken the first item. -/
theorem channel_backpressure_witness :
    (1 ≤ 1 ∧ ((NewChannelBackend GoTy String exampleLimit).Buffer 1).buffer = ((1 : Nat) : Int)
      ∧ mapLookup (((NewChannelBackend GoTy String exampleLimit).Buffer 1).after goTypes
          [Op.put "Q" (Value.dyn GoTy.string "a")]).channels "Q" = some (some 0)
      ∧ ((NewChannelBackend GoTy String exampleLimit).Buffer 1).heap.length ≤ 0
      ∧ (((NewChannelBackend GoTy String exampleLimit).Buffer 1).after goTypes
          [Op.put "Q" (Value.dyn GoTy.string "a")]).heap.get? 0
          = some (Chan.mk 1 [Value.dyn GoTy.string "a"] false))
    ∧ (((NewChannelBackend GoTy String exampleLimit).Buffer 1).after goTypes
          [Op.put "Q" (Value.dyn GoTy.string "a")]).Put "Q" (Value.dyn GoTy.string "b")
        = .block (((NewChannelBackend GoTy String exampleLimit).Buffer 1).after goTypes
          [Op.put "Q" (Value.dyn GoTy.string "a")])
    ∧ ∃ b2, ((((NewChannelBackend GoTy String exampleLimit).Buffer 1).after goTypes
          [Op.put "Q" (Value.dyn GoTy.string "a")]).call goTypes
            (.get "Q" (.ptr .string))).2.Put "Q" (Value.dyn GoTy.string "b") = .ret none b2 :=
  have h := channel_backpressure goTypes ((NewChannelBackend GoTy String exampleLimit).Buffer 1) 1
    [Op.put "Q" (Value.dyn GoTy.string "a")] "Q" 0 (Chan.mk 1 [Value.dyn GoTy.string "a"] false)
    (by decide) (by decide) (by decide) (by decide) (by decide)
  ⟨⟨by decide, by decide, by decide, by decide, by decide⟩,
    h.2.2.2.1 (Value.dyn GoTy.string "b") (by decide),
    (h.2.2.2.2 (by decide) (.ptr .string) (Value.dyn GoTy.string "b")).2.1⟩

/-! ## C2: isolation of queue names -/

theorem lookup_newest {Ty D : Type} (h : List (Chan Ty D)) (l : List (String × ChanRef))
    (buffer : Int) (L : Nat) (Q : String) (buf : List (Value Ty D)) (q : String) :
    mapLookup (newest h l buffer L Q buf).channels q
      = if q = Q then some (some h.length) else mapLookup (some l) q := by
  by_cases hq : q = Q
  · simp [mapLookup, newest, hq]
  · have h2 : (q == Q) = false := by simp [hq]
    simp only [mapLookup, newest, List.lookup_cons, h2, hq, if_false]

theorem inv_mono {Ty D : Type} (b : ChannelBackend Ty D) (log log2 : List (String × Value Ty D))
    (hsub : ∀ e ∈ log, e ∈ log2) (h : b.Inv log) : b.Inv log2 :=
  ⟨h.1, h.2.1, fun q i c hq hc x hx => hsub _ (h.2.2 q i c hq hc x hx)⟩

theorem inv_getChannel {Ty D : Type} (b : ChannelBackend Ty D) (q : String)
    (log : List (String × Value Ty D)) (h : b.Inv log) : (b.getChannel q).state.Inv log := by
  rcases getChannel_cases b q with
    ⟨r, _, hg⟩ | ⟨_, _, hg⟩ | ⟨hnil, _, _, hg⟩ | ⟨l, hl, hno, _, _, hg⟩
  · rw [hg]; exact h
  · rw [hg]; exact h
  · rw [hg]
    have hnone : ∀ q2, mapLookup (Outcome.panicked PanicKind.nilMapAssign
        ({ b with heap := b.heap ++ [Chan.mk b.buffer.toNat [] false] } :
          ChannelBackend Ty D) : Outcome Ty D ChanRef).state.channels q2 = none := by
      intro q2; simp only [Outcome.state, hnil, mapLookup]
    refine ⟨fun q2 i hq => ?_, fun q2 q3 i hq => ?_, fun q2 i c hq => ?_⟩
    all_goals (rw [hnone] at hq; exact Option.noConfusion hq)
  · rw [hg]
    simp only [Outcome.state]
    have hold : ∀ q2, q2 ≠ q →
        mapLookup (newest b.heap l b.buffer b.makeLimit q ([] : List (Value Ty D))).channels q2
          = mapLookup b.channels q2 := by
      intro q2 hne; rw [lookup_newest, if_neg hne, hl]
    have hself : mapLookup (newest b.heap l b.buffer b.makeLimit q ([] : List (Value Ty D))).channels q
        = some (some b.heap.length) := by
      rw [lookup_newest, if_pos rfl]
    have hlen : (newest b.heap l b.buffer b.makeLimit q ([] : List (Value Ty D))).heap.length
        = b.heap.length + 1 := by simp [newest]
    refine ⟨fun q2 i hq => ?_, fun q2 q3 i hq2 hq3 => ?_, fun q2 i c hq hc x hx => ?_⟩
    · rw [hlen]
      by_cases he : q2 = q
      · rw [he, hself] at hq; injection hq with hq; injection hq with hq; omega
      · rw [hold q2 he] at hq; have := h.1 q2 i hq; omega
    · by_cases he2 : q2 = q
      · by_cases he3 : q3 = q
        · rw [he2, he3]
        · rw [he2, hself] at hq2; injection hq2 with hq2; injection hq2 with hq2
          rw [hold q3 he3] at hq3; have := h.1 q3 i hq3; omega
      · by_cases he3 : q3 = q
        · rw [he3, hself] at hq3; injection hq3 with hq3; injection hq3 with hq3
          rw [hold q2 he2] at hq2; have := h.1 q2 i hq2; omega
        · rw [hold q2 he2] at hq2; rw [hold q3 he3] at hq3
          exact h.2.1 q2 q3 i hq2 hq3
    · rcases get?_append_single _ _ _ _ hc with hc1 | ⟨_, hnew⟩
      · by_cases he : q2 = q
        · rw [he, hself] at hq; injection hq with hq; injection hq with hq
          rw [← hq, List.get?_eq_getElem?, List.getElem?_eq_none (Nat.le_refl _)] at hc1
          exact Option.noConfusion hc1
        · rw [hold q2 he] at hq; exact h.2.2 q2 i c hq hc1 x hx
      · rw [hnew] at hx; simp at hx

theorem inv_pushAt {Ty D : Type} (b : ChannelBackend Ty D) (q : String) (i : Nat)
    (c : Chan Ty D) (v : Value Ty D) (log : List (String × Value Ty D)) (h : b.Inv log)
    (hq : mapLookup b.channels q = some (some i)) (hc : b.heap.get? i = some c) :
    (b.pushAt i c v).Inv (log ++ [(q, v)]) := by
  refine ⟨fun q2 i2 hq2 => ?_, h.2.1, fun q2 i2 c2 hq2 hc2 x hx => ?_⟩
  · simp only [ChannelBackend.pushAt, List.length_set]; exact h.1 q2 i2 hq2
  · rcases get?_set_cases _ _ _ _ _ hc2 with ⟨hji, hnew⟩ | ⟨_, hold⟩
    · have hqq : q2 = q := h.2.1 q2 q i (hji ▸ hq2) hq
      rw [hnew] at hx
      simp only [List.mem_append, List.mem_singleton] at hx ⊢
      rcases hx with hx | hx
      · exact Or.inl (hqq ▸ h.2.2 q i c hq hc x hx)
      · right; rw [hqq, hx]
    · exact List.mem_append_left _ (h.2.2 q2 i2 c2 hq2 hold x hx)

theorem inv_popAt {Ty D : Type} (b : ChannelBackend Ty D) (q : String) (i : Nat)
    (c : Chan Ty D) (y : Value Ty D) (rest : List (Value Ty D))
    (log : List (String × Value Ty D)) (h : b.Inv log)
    (hq : mapLookup b.channels q = some (some i)) (hc : b.heap.get? i = some c)
    (hbuf : c.buf = y :: rest) : (b.popAt i c rest).Inv log := by
  refine ⟨fun q2 i2 hq2 => ?_, h.2.1, fun q2 i2 c2 hq2 hc2 x hx => ?_⟩
  · simp only [ChannelBackend.popAt, List.length_set]; exact h.1 q2 i2 hq2
  · rcases get?_set_cases _ _ _ _ _ hc2 with ⟨hji, hnew⟩ | ⟨_, hold⟩
    · have hqq : q2 = q := h.2.1 q2 q i (hji ▸ hq2) hq
      rw [hnew] at hx
      have hx2 : x ∈ c.buf := by rw [hbuf]; exact List.mem_cons_of_mem _ hx
      exact hqq ▸ h.2.2 q i c hq hc x hx2
    · exact h.2.2 q2 i2 c2 hq2 hold x hx

theorem inv_remove {Ty D : Type} (b : ChannelBackend Ty D) (Q : String)
    (log : List (String × Value Ty D)) (h : b.Inv log) : (b.RemoveQueue Q).state.Inv log := by
  have hkeep : ∀ q i, mapLookup (b.RemoveQueue Q).state.channels q = some (some i) →
      mapLookup b.channels q = some (some i) := by
    intro q i hq
    by_cases he : q = Q
    · rw [he, removeQueue_lookup_self] at hq; exact Option.noConfusion hq
    · rw [removeQueue_lookup_ne b Q q he] at hq; exact hq
  exact ⟨fun q i hq => h.1 q i (hkeep q i hq),
    fun q q2 i hq hq2 => h.2.1 q q2 i (hkeep q i hq) (hkeep q2 i hq2),
    fun q i c hq hc => h.2.2 q i c (hkeep q i hq) hc⟩

theorem inv_call {Ty D : Type} (ts : TypeSystem Ty) (b : ChannelBackend Ty D) (op : Op Ty D)
    (log : List (String × Value Ty D)) (h : b.Inv log) :
    (b.call ts op).2.Inv (log ++ logEntry op (b.call ts op).1) := by
  cases op with
  | put q v =>
    have hg := inv_getChannel b q log h
    rcases put_cases b q v with ⟨i, c, hq, hc, _, _, hp⟩ | ⟨hno, hst⟩
    · simp only [ChannelBackend.call, hp, logEntry]
      exact inv_pushAt _ q i c v log hg hq hc
    · have hs := call_state ts b (.put q v)
      simp only at hs
      rw [hs, hst]
      refine inv_mono _ log _ (fun e he => List.mem_append_left _ he) hg
  | get q d =>
    have hg := inv_getChannel b q log h
    have hlog : logEntry (Op.get q d) (b.call ts (.get q d)).1 = [] := by
      simp only [logEntry]
    rw [hlog, List.append_nil, call_state]
    rcases get_cases ts b q d with ⟨i, c, x, rest, hq, hc, hbuf, hp⟩ | ⟨_, hst⟩
    · have hst : (b.Get ts q d).state = (b.getChannel q).state.popAt i c rest := by
        rw [hp]; cases reflectSet ts d x <;> rfl
      simp only [hst]
      exact inv_popAt _ q i c x rest log hg hq hc hbuf
    · simp only [hst]; exact hg
  | remove q =>
    have hlog : logEntry (Op.remove q : Op Ty D) (b.call ts (.remove q)).1 = [] := by
      simp only [logEntry]
    rw [hlog, List.append_nil, call_state]
    exact inv_remove b q log h

theorem inv_after {Ty D : Type} (ts : TypeSystem Ty) (ops : List (Op Ty D)) :
    ∀ (b : ChannelBackend Ty D) (log : List (String × Value Ty D)), b.Inv log →
      (b.after ts ops).Inv (log ++ b.putLog ts ops) := by
  induction ops with
  | nil => intro b log h; simpa [ChannelBackend.after, ChannelBackend.calls,
      ChannelBackend.putLog] using h
  | cons op ops ih =>
    intro b log h
    have h1 := inv_call ts b op log h
    have h2 := ih (b.call ts op).2 _ h1
    simpa only [ChannelBackend.after, ChannelBackend.calls, ChannelBackend.putLog,
      List.append_assoc] using h2

theorem chanOf_getChannel_other {Ty D : Type} (b : ChannelBackend Ty D) (A B : String)
    (log : List (String × Value Ty D)) (h : b.Inv log) (hne : A ≠ B) :
    (b.getChannel A).state.chanOf B = b.chanOf B := by
  rcases getChannel_cases b A with
    ⟨r, _, hg⟩ | ⟨_, _, hg⟩ | ⟨hnil, _, _, hg⟩ | ⟨l, hl, _, _, _, hg⟩
  · rw [hg]; rfl
  · rw [hg]; rfl
  · rw [hg]; simp only [Outcome.state, ChannelBackend.chanOf, hnil, mapLookup]
  · rw [hg]
    simp only [Outcome.state, ChannelBackend.chanOf]
    rw [lookup_newest, if_neg (fun e => hne e.symm), ← hl]
    cases hm : mapLookup b.channels B with
    | none => rfl
    | some r =>
      cases r with
      | none => rfl
      | some j =>
        have hj := h.1 B j hm
        simp only [newest, List.get?_eq_getElem?]
        exact List.getElem?_append_left hj

theorem chanOf_pushAt_other {Ty D : Type} (b : ChannelBackend Ty D) (A B : String) (i : Nat)
    (c : Chan Ty D) (v : Value Ty D) (log : List (String × Value Ty D)) (h : b.Inv log)
    (hne : A ≠ B) (hq : mapLookup b.channels A = some (some i)) :
    (b.pushAt i c v).chanOf B = b.chanOf B := by
  simp only [ChannelBackend.chanOf, ChannelBackend.pushAt]
  cases hm : mapLookup b.channels B with
  | none => rfl
  | some r =>
    cases r with
    | none => rfl
    | some j =>
      have hij : i ≠ j := fun e => hne (h.2.1 A B i hq (e ▸ hm))
      simp only [List.get?_eq_getElem?]
      exact List.getElem?_set_ne hij

theorem isolated_inv {Ty D : Type} (b : ChannelBackend Ty D) (h : b.Isolated) : b.Inv [] :=
  ⟨h.1, h.2.1, fun q i c hq hc x hx => by rw [h.2.2 q i c hq hc] at hx; simp at hx⟩

/-- A freshly constructed backend, whatever its buffer, is isolated. -/
theorem isolated_new (Ty D : Type) (L : Nat) (buffer : Int) :
    ((NewChannelBackend Ty D L).Buffer buffer).Isolated := by
  have hnone : ∀ q, mapLookup ((NewChannelBackend Ty D L).Buffer buffer).channels q = none :=
    fun q => rfl
  refine ⟨fun q i hq => ?_, fun q q2 i hq => ?_, fun q i c hq => ?_⟩
  all_goals (rw [hnone] at hq; exact Option.noConfusion hq)

/-- C2 (amended). In-process isolation. Take a backend whose channel map
holds only references to existing channels, maps different names to different
channels, and whose mapped channels are empty (so every freshly constructed
backend, whatever its `Buffer`, and every `Channels` map of distinct empty
channels). After any sequence of `Put`, `Get` and `RemoveQueue` calls, every
value that a `Get(B)` returns is the value of an earlier `Put` onto `B` that
returned in this sequence; and for `A` different from `B`, a `Put(A, v)`
leaves the channel and the buffered items of `B` unchanged. -/
theorem channel_isolation {Ty D : Type} (ts : TypeSystem Ty) (b0 : ChannelBackend Ty D)
    (ops : List (Op Ty D)) (hiso : b0.Isolated) :
    (∀ B d r b1, (b0.after ts ops).Get ts B d = .ret r b1 →
        (B, r.stored) ∈ b0.putLog ts ops)
    ∧ (∀ A B v, A ≠ B →
        ((b0.after ts ops).Put A v).state.chanOf B = (b0.after ts ops).chanOf B
        ∧ ((b0.after ts ops).Put A v).state.buffered B = (b0.after ts ops).buffered B) := by
  have hinv : (b0.after ts ops).Inv (b0.putLog ts ops) := by
    have := inv_after ts ops b0 [] (isolated_inv b0 hiso)
    simpa using this
  constructor
  · intro B d r b1 hget
    have hg := inv_getChannel _ B _ hinv
    rcases get_cases ts (b0.after ts ops) B d with ⟨i, c, x, rest, hq, hc, hbuf, hp⟩ | ⟨hno, _⟩
    · rw [hp] at hget
      cases hr : reflectSet ts d x with
      | error p => rw [hr] at hget; exact Outcome.noConfusion hget
      | ok y =>
        rw [hr] at hget
        injection hget with e1 e2
        have hy : y = x := reflectSet_ok ts d x y hr
        have hx : x ∈ c.buf := by rw [hbuf]; exact List.mem_cons_self _ _
        rw [← e1, hy]
        exact hg.2.2 B i c hq hc x hx
    · exact absurd hget (hno r b1)
  · intro A B v hne
    have hg := inv_getChannel _ A _ hinv
    have h1 := chanOf_getChannel_other _ A B _ hinv hne
    have hch : ((b0.after ts ops).Put A v).state.chanOf B = (b0.after ts ops).chanOf B := by
      rcases put_cases (b0.after ts ops) A v with ⟨i, c, hq, hc, _, _, hp⟩ | ⟨_, hst⟩
      · rw [hp]
        exact (chanOf_pushAt_other _ A B i c v _ hg hne hq).trans h1
      · rw [hst, h1]
    exact ⟨hch, by simp only [ChannelBackend.buffered, hch]⟩

/-- Witness of C2: on a fresh backend, after puts on "A" and "B", the `Get`
on "B" returns the value put on "B". -/
theorem channel_isolation_witness :
    ((NewChannelBackend GoTy Nat exampleLimit).Buffer 2).Isolated
    ∧ ((((NewChannelBackend GoTy Nat exampleLimit).Buffer 2).after goTypes
          [Op.put "A" (intV 1), Op.put "B" (intV 2)]).Get goTypes "B" (.ptr .int)
        = .ret ⟨none, intV 2⟩
            (((NewChannelBackend GoTy Nat exampleLimit).Buffer 2).after goTypes
              [Op.put "A" (intV 1), Op.put "B" (intV 2), Op.get "B" (.ptr .int)])
      → ("B", intV 2) ∈ ((NewChannelBackend GoTy Nat exampleLimit).Buffer 2).putLog goTypes
          [Op.put "A" (intV 1), Op.put "B" (intV 2)])
    ∧ (((NewChannelBackend GoTy Nat exampleLimit).Buffer 2).after goTypes
          [Op.put "A" (intV 1), Op.put "B" (intV 2)]).Get goTypes "B" (.ptr .int)
        = .ret ⟨none, intV 2⟩
            (((NewChannelBackend GoTy Nat exampleLimit).Buffer 2).after goTypes
              [Op.put "A" (intV 1), Op.put "B" (intV 2), Op.get "B" (.ptr .int)])
    ∧ ((NewChannelBackend GoTy Nat exampleLimit).Buffer 2).putLog goTypes
          [Op.put "A" (intV 1), Op.put "B" (intV 2)] = [("A", intV 1), ("B", intV 2)] :=
  ⟨isolated_new GoTy Nat exampleLimit 2,
    (channel_isolation goTypes ((NewChannelBackend GoTy Nat exampleLimit).Buffer 2)
      [Op.put "A" (intV 1), Op.put "B" (intV 2)] (isolated_new GoTy Nat exampleLimit 2)).1
      "B" (.ptr .int) ⟨none, intV 2⟩ _,
    by decide, by decide⟩

/-- Counterexample to C2 as stated: the caller supplies a map in which "A" and
"B" name the same channel; the value put on "A" is returned by `Get` on "B",
on which nothing was put, and the `Put` on "A" changed what is buffered under
"B". A second map holds a channel that already carries an item, which `Get`
returns although it was never put through the backend. -/
theorem channel_isolation_counterexample :
    ((((callerMade exampleLimit [Chan.mk 2 [] false] : ChannelBackend GoTy Nat).Channels
        (some [("A", some 0), ("B", some 0)])).calls goTypes
        [Op.put "A" (intV 1), Op.get "B" (.ptr .int)]).1
      = [Observed.returned none, Observed.got none (intV 1)])
    ∧ (((callerMade exampleLimit [Chan.mk 2 [] false] : ChannelBackend GoTy Nat).Channels
        (some [("A", some 0), ("B", some 0)])).buffered "B" = []
      ∧ ((((callerMade exampleLimit [Chan.mk 2 [] false] : ChannelBackend GoTy Nat).Channels
        (some [("A", some 0), ("B", some 0)])).Put "A" (intV 1)).state.buffered "B"
          = [intV 1]))
    ∧ ((((callerMade exampleLimit [Chan.mk 2 [intV 9] false] : ChannelBackend GoTy Nat).Channels
        (some [("B", some 0)])).calls goTypes [Op.get "B" (.ptr .int)]).1
      = [Observed.got none (intV 9)]) := by
  refine ⟨by decide, ⟨by decide, by decide⟩, by decide⟩

/-! ## The networked backend: the reservation loop -/

theorem reserveLoop_timeouts {E Conn Data V : Type} [DecidableEq E] (w : World E Conn Data V)
    (conn : Conn) (q : String) (tail : List (ReserveResult E Data))
    (ts : List (ReserveResult E Data)) (hts : ∀ t ∈ ts, t.err = some w.errTimeout) :
    reserveLoop w conn q (ts ++ tail)
      = match reserveLoop w conn q tail with
        | none => none
        | some (e, tr) => some (e, List.replicate ts.length (Event.reserve conn q) ++ tr) := by
  induction ts with
  | nil => simp only [List.nil_append, List.length_nil, List.replicate_zero]
           cases reserveLoop w conn q tail <;> rfl
  | cons t ts ih =>
    have ht : t.err = some w.errTimeout := hts t (List.mem_cons_self _ _)
    have ih2 := ih (fun x hx => hts x (List.mem_cons_of_mem _ hx))
    have hstep : reserveLoop w conn q (t :: ts ++ tail)
        = match reserveLoop w conn q (ts ++ tail) with
          | none => none
          | some (e, tr) => some (e, Event.reserve conn q :: tr) := by
      simp only [List.cons_append, reserveLoop, ht, ne_eq, not_true_eq_false, if_false]
      rfl
    rw [hstep, ih2]
    cases reserveLoop w conn q tail with
    | none => rfl
    | some p => simp [List.replicate_succ]

/-- The loop returns at the first answer that is not a timeout, whatever follows. -/
theorem reserveLoop_head {E Conn Data V : Type} [DecidableEq E] (w : World E Conn Data V)
    (conn : Conn) (q : String) (r : ReserveResult E Data) (rest : List (ReserveResult E Data))
    (hr : r.err ≠ some w.errTimeout) :
    reserveLoop w conn q (r :: rest)
      = some (match r.err with
        | some err => (some err, [Event.reserve conn q])
        | none =>
          match w.unmarshal r.data with
          | some err => (some err, [Event.reserve conn q, Event.unmarshal r.data])
          | none => (w.delete conn r.id,
              [Event.reserve conn q, Event.unmarshal r.data, Event.delete conn r.id])) := by
  cases he : r.err with
  | none =>
    simp only [reserveLoop, he]
    cases hu : w.unmarshal r.data with
    | some err => rfl
    | none => cases hd : w.delete conn r.id <;> rfl
  | some err =>
    have hne : err ≠ w.errTimeout := fun e => hr (by rw [he, e])
    simp only [reserveLoop, he, ne_eq, hne, not_false_eq_true, if_true]

theorem reserveCalls_append {Conn Data V : Type} (xs ys : List (Event Conn Data V)) :
    reserveCalls (xs ++ ys) = reserveCalls xs + reserveCalls ys := by
  induction xs with
  | nil => simp [reserveCalls]
  | cons x xs ih =>
    have hx : ∀ e : Event Conn Data V, reserveCalls (e :: (xs ++ ys))
        = reserveCalls [e] + reserveCalls (xs ++ ys) := by
      intro e; cases e <;> simp [reserveCalls]; omega
    have hx2 : ∀ e : Event Conn Data V, reserveCalls (e :: xs)
        = reserveCalls [e] + reserveCalls xs := by
      intro e; cases e <;> simp [reserveCalls]; omega
    rw [List.cons_append, hx, hx2, ih]; omega

theorem reserveCalls_replicate {Conn Data V : Type} (conn : Conn) (q : String) (k : Nat) :
    reserveCalls (List.replicate k (Event.reserve conn q : Event Conn Data V)) = k := by
  induction k with
  | zero => rfl
  | succ k ih => simp [List.replicate_succ, reserveCalls, ih]

theorem returnedConns_append {Conn Data V : Type} (xs ys : List (Event Conn Data V)) :
    returnedConns (xs ++ ys) = returnedConns xs ++ returnedConns ys := by
  induction xs with
  | nil => simp [returnedConns]
  | cons x xs ih => cases x <;> simp [returnedConns, ih]

theorem returnedConns_reserveLoop {E Conn Data V : Type} [DecidableEq E]
    (w : World E Conn Data V) (conn : Conn) (q : String)
    (answers : List (ReserveResult E Data)) :
    ∀ e tr, reserveLoop w conn q answers = some (e, tr) → returnedConns tr = [] := by
  induction answers with
  | nil => intro e tr h; simp [reserveLoop] at h
  | cons r rest ih =>
    intro e tr h
    by_cases hr : r.err = some w.errTimeout
    · simp only [reserveLoop, hr, ne_eq, not_true_eq_false, if_false] at h
      cases hl : reserveLoop w conn q rest with
      | none => rw [hl] at h; exact Option.noConfusion h
      | some p =>
        obtain ⟨e2, tr2⟩ := p
        rw [hl] at h
        simp only [Option.some.injEq, Prod.mk.injEq] at h
        rw [← h.2]
        simp only [returnedConns]
        exact ih e2 tr2 hl
    · rw [reserveLoop_head w conn q r rest hr] at h
      simp only [Option.some.injEq] at h
      cases he : r.err with
      | some err => rw [he] at h; simp only [Prod.mk.injEq] at h; rw [← h.2]; rfl
      | none =>
        rw [he] at h
        cases hu : w.unmarshal r.data with
        | some err => rw [hu] at h; simp only [Prod.mk.injEq] at h; rw [← h.2]; rfl
        | none => rw [hu] at h; simp only [Prod.mk.injEq] at h; rw [← h.2]; rfl

theorem get_shape {E Conn Data V : Type} [DecidableEq E] (w : World E Conn Data V)
    (conn : Conn) (q : String) (ts rest : List (ReserveResult E Data))
    (r : ReserveResult E Data) (hb : w.borrowObject = .ok conn)
    (hts : ∀ t ∈ ts, t.err = some w.errTimeout) (hr : r.err ≠ some w.errTimeout) :
    beanstalkGet w q (ts ++ r :: rest)
      = some ((answerOutcome w conn q r).1,
          [Event.borrowObject, Event.poolTubeSetsGet]
            ++ (List.replicate ts.length (Event.reserve conn q) ++ (answerOutcome w conn q r).2)
            ++ [Event.poolTubeSetsPut, Event.returnObject conn]) := by
  have hhead : reserveLoop w conn q (r :: rest) = some (answerOutcome w conn q r) := by
    rw [reserveLoop_head w conn q r rest hr]; rfl
  have hloop := reserveLoop_timeouts w conn q (r :: rest) ts hts
  rw [hhead] at hloop
  simp only [beanstalkGet, getConn, hb, hloop]

theorem reserveCalls_answerOutcome {E Conn Data V : Type} (w : World E Conn Data V)
    (conn : Conn) (q : String) (r : ReserveResult E Data) :
    reserveCalls (answerOutcome w conn q r).2 = 1 := by
  simp only [answerOutcome]
  repeat' split
  all_goals rfl

/-- Answers of `Reserve` whose error is the value `ErrTimeout` itself are
absorbed: after a successful borrow, on `k` such answers followed by an answer
`r` with another error or none, `Get` returns after exactly `k + 1` calls of
`Reserve`, with the error it returns when `r` is the first and only answer;
and when `r` is an error, `Get` returns exactly that error and calls neither
`Unmarshal` nor `Delete`. -/
theorem sentinel_timeouts_absorbed {E Conn Data V : Type} [DecidableEq E]
    (w : World E Conn Data V) (conn : Conn) (q : String)
    (ts rest : List (ReserveResult E Data)) (r : ReserveResult E Data)
    (hb : w.borrowObject = .ok conn)
    (hts : ∀ t ∈ ts, t.err = some w.errTimeout) (hr : r.err ≠ some w.errTimeout) :
    ∃ e tr, beanstalkGet w q (ts ++ r :: rest) = some (e, tr)
      ∧ reserveCalls tr = ts.length + 1
      ∧ (∃ tr1, beanstalkGet w q [r] = some (e, tr1))
      ∧ (∀ err, r.err = some err →
          e = some err
          ∧ tr = [Event.borrowObject, Event.poolTubeSetsGet]
              ++ List.replicate (ts.length + 1) (Event.reserve conn q)
              ++ [Event.poolTubeSetsPut, Event.returnObject conn]) := by
  refine ⟨_, _, get_shape w conn q ts rest r hb hts hr, ?_, ?_, ?_⟩
  · rw [reserveCalls_append, reserveCalls_append, reserveCalls_append, reserveCalls_replicate,
      reserveCalls_answerOutcome]
    simp only [reserveCalls]
    omega
  · have h0 := get_shape w conn q [] [] r hb (fun t ht => by simp at ht) hr
    exact ⟨_, h0⟩
  · intro err he
    have ho : answerOutcome w conn q r = (some err, [Event.reserve conn q]) := by
      simp only [answerOutcome, he]
    rw [ho]
    refine ⟨rfl, ?_⟩
    simp only [List.replicate_succ', List.append_assoc]

/-- C3 (defect of the code). The reservation of `Get("q", v)` times out once
and an item (id 3, data 42) would be reserved by the next `Reserve`. The
client reports the timeout as a `ConnError` around `ErrTimeout`, which the
comparison with `beanstalk.ErrTimeout` in the loop finds different from it; so
`Get` returns that error after a single `Reserve` and never reserves the
item, where the claim has the timeout absorbed, two `Reserve` calls made and
the item decoded and deleted. -/
theorem get_surfaces_reserve_timeout :
    reserveTimedOut.err ≠ some clientWorld.errTimeout
    ∧ beanstalkGet clientWorld "q" [reserveTimedOut, ReserveResult.mk 3 42 none]
        = some (some (ClientError.connError "reserve-with-timeout" ClientError.errTimeout),
            [Event.borrowObject, Event.poolTubeSetsGet, Event.reserve 7 "q",
              Event.poolTubeSetsPut, Event.returnObject 7])
    ∧ beanstalkGet clientWorld "q" [ReserveResult.mk 3 42 none]
        = some (none,
            [Event.borrowObject, Event.poolTubeSetsGet, Event.reserve 7 "q",
              Event.unmarshal 42, Event.delete 7 3, Event.poolTubeSetsPut,
              Event.returnObject 7]) := by
  refine ⟨by decide, by decide, by decide⟩

/-! ## The networked backend: decode, then acknowledge -/

/-- C4. Networked `Get` acknowledges only after a successful decode. After a
successful borrow, when `Reserve` (after any number of timeouts) answers an
item `(id, data)` with a nil error, the calls that follow this `Reserve` are
`Unmarshal(data, value)` first; if it fails, `Get` returns that error
unchanged and calls neither `Delete` nor `Reserve` again; if it succeeds,
`Get` calls `Delete` once, with the same `id`, and returns what `Delete`
returns (its error, or nil), again without another `Reserve`. -/
theorem get_acks_after_decode {E Conn Data V : Type} [DecidableEq E] (w : World E Conn Data V)
    (conn : Conn) (q : String) (ts rest : List (ReserveResult E Data)) (id : Nat) (data : Data)
    (hb : w.borrowObject = .ok conn) (hts : ∀ t ∈ ts, t.err = some w.errTimeout) :
    (∀ err, w.unmarshal data = some err →
      beanstalkGet w q (ts ++ ReserveResult.mk id data none :: rest)
        = some (some err,
            [Event.borrowObject, Event.poolTubeSetsGet]
              ++ (List.replicate ts.length (Event.reserve conn q)
                  ++ [Event.reserve conn q, Event.unmarshal data])
              ++ [Event.poolTubeSetsPut, Event.returnObject conn]))
    ∧ (w.unmarshal data = none →
      beanstalkGet w q (ts ++ ReserveResult.mk id data none :: rest)
        = some (w.delete conn id,
            [Event.borrowObject, Event.poolTubeSetsGet]
              ++ (List.replicate ts.length (Event.reserve conn q)
                  ++ [Event.reserve conn q, Event.unmarshal data, Event.delete conn id])
              ++ [Event.poolTubeSetsPut, Event.returnObject conn])) := by
  have hr : (ReserveResult.mk id data none : ReserveResult E Data).err ≠ some w.errTimeout :=
    fun h => Option.noConfusion h
  have hs := get_shape w conn q ts rest (ReserveResult.mk id data none) hb hts hr
  constructor
  · intro err hu
    have ho : answerOutcome w conn q (ReserveResult.mk id data none)
        = (some err, [Event.reserve conn q, Event.unmarshal data]) := by
      simp only [answerOutcome, hu]
    rw [hs, ho]
  · intro hu
    have ho : answerOutcome w conn q (ReserveResult.mk id data none)
        = (w.delete conn id,
            [Event.reserve conn q, Event.unmarshal data, Event.delete conn id]) := by
      simp only [answerOutcome, hu]
    rw [hs, ho]

/-- Witness of C4: after one timeout, an item that decodes and is deleted; an
item whose decoding fails with error 5; an item whose deletion fails with error 6. -/
theorem get_acks_after_decode_witness :
    (demoWorld.borrowObject = .ok 7
      ∧ ∀ t ∈ [ReserveResult.mk 0 0 (some 0)], t.err = some demoWorld.errTimeout)
    ∧ beanstalkGet demoWorld "q" ([ReserveResult.mk 0 0 (some 0)] ++ ReserveResult.mk 3 42 none :: [])
        = some (none,
            [Event.borrowObject, Event.poolTubeSetsGet, Event.reserve 7 "q", Event.reserve 7 "q",
              Event.unmarshal 42, Event.delete 7 3, Event.poolTubeSetsPut, Event.returnObject 7])
    ∧ beanstalkGet demoWorld "q" ([ReserveResult.mk 0 0 (some 0)] ++ ReserveResult.mk 3 13 none :: [])
        = some (some 5,
            [Event.borrowObject, Event.poolTubeSetsGet, Event.reserve 7 "q", Event.reserve 7 "q",
              Event.unmarshal 13, Event.poolTubeSetsPut, Event.returnObject 7])
    ∧ beanstalkGet demoWorld "q" ([ReserveResult.mk 0 0 (some 0)] ++ ReserveResult.mk 99 42 none :: [])
        = some (some 6,
            [Event.borrowObject, Event.poolTubeSetsGet, Event.reserve 7 "q", Event.reserve 7 "q",
              Event.unmarshal 42, Event.delete 7 99, Event.poolTubeSetsPut,
              Event.returnObject 7]) :=
  ⟨⟨rfl, by decide⟩,
    (get_acks_after_decode demoWorld 7 "q" [ReserveResult.mk 0 0 (some 0)] [] 3 42 rfl
      (by decide)).2 rfl,
    (get_acks_after_decode demoWorld 7 "q" [ReserveResult.mk 0 0 (some 0)] [] 3 13 rfl
      (by decide)).1 5 rfl,
    (get_acks_after_decode demoWorld 7 "q" [ReserveResult.mk 0 0 (some 0)] [] 99 42 rfl
      (by decide)).2 rfl⟩

/-! ## The networked backend: release of the connection -/

/-- C5. Connection release in the networked backend. For every `Put` and
every `Get` that returns: if the borrow succeeds with a connection, the
connections handed to `ReturnObject` during the call are exactly that one
connection, once, whatever the exit path; if the borrow fails, the call
returns the borrow error unchanged and makes no other call at all (no
`ReturnObject`, no codec call, no server call). -/
theorem connection_released {E Conn Data V : Type} [DecidableEq E] (w : World E Conn Data V)
    (q : String) (value : V) (answers : List (ReserveResult E Data)) :
    (∀ conn, w.borrowObject = .ok conn →
      returnedConns (beanstalkPut w q value).2 = [conn]
      ∧ ∀ e tr, beanstalkGet w q answers = some (e, tr) → returnedConns tr = [conn])
    ∧ (∀ err, w.borrowObject = .error err →
      beanstalkPut w q value = (some err, [Event.borrowObject])
      ∧ beanstalkGet w q answers = some (some err, [Event.borrowObject])) := by
  constructor
  · intro conn hb
    constructor
    · simp only [beanstalkPut, getConn, hb]
      cases w.marshal value <;> rfl
    · intro e tr h
      simp only [beanstalkGet, getConn, hb] at h
      cases hl : reserveLoop w conn q answers with
      | none => rw [hl] at h; exact Option.noConfusion h
      | some p =>
        obtain ⟨e2, tr2⟩ := p
        rw [hl] at h
        simp only [Option.some.injEq, Prod.mk.injEq] at h
        rw [← h.2, returnedConns_append, returnedConns_append,
          returnedConns_reserveLoop w conn q answers e2 tr2 hl]
        rfl
  · intro err hb
    constructor
    · simp only [beanstalkPut, getConn, hb]
    · simp only [beanstalkGet, getConn, hb]

/-- Witness of C5: a `Put` that succeeds and a `Get` that returns after a
timeout and a decode failure each return connection 7 once. -/
theorem connection_released_witness :
    demoWorld.borrowObject = .ok 7
    ∧ returnedConns (beanstalkPut demoWorld "q" 42).2 = [7]
    ∧ beanstalkGet demoWorld "q" [ReserveResult.mk 0 0 (some 0), ReserveResult.mk 3 13 none]
        = some (some 5,
            [Event.borrowObject, Event.poolTubeSetsGet, Event.reserve 7 "q", Event.reserve 7 "q",
              Event.unmarshal 13, Event.poolTubeSetsPut, Event.returnObject 7])
    ∧ returnedConns ([Event.borrowObject, Event.poolTubeSetsGet, Event.reserve 7 "q",
          Event.reserve 7 "q", Event.unmarshal 13, Event.poolTubeSetsPut,
          Event.returnObject 7] : List (Event Nat Nat Nat)) = [7] :=
  have h := (connection_released demoWorld "q" 42
    [ReserveResult.mk 0 0 (some 0), ReserveResult.mk 3 13 none]).1 7 rfl
  ⟨rfl, h.1, by decide, h.2 (some 5) _ (by decide)⟩

end GoQueue
